import Mathlib

/-!
Verification of the esquilait SQLite reader: a shallow embedding of the
varint codec, record codec, page reader, SQL/DDL parser and B-tree
traversal, with theorems checking the natural-language specification
against the code.

Bytes are modelled as `Nat` (always < 256 in practice); u64 arithmetic
that cannot overflow is modelled directly on `Nat`, with explicit
`% 2 ^ w` or conversion functions where wrap-around matters.
-/

namespace Esquilait

/-! ## Byte-level primitive parsers (model of the nom combinators used) -/

/-- Model of `nom::number::complete::u8`: one byte. -/
def u8P (input : List Nat) : Option (List Nat × Nat) :=
  match input with
  | [] => none
  | b :: rest => some (rest, b)

/-- Model of `nom::number::complete::be_u16`: two bytes, big-endian. -/
def beU16P (input : List Nat) : Option (List Nat × Nat) :=
  match input with
  | a :: b :: rest => some (rest, a * 256 + b)
  | _ => none

/-- Model of `nom::number::complete::be_u32`: four bytes, big-endian. -/
def beU32P (input : List Nat) : Option (List Nat × Nat) :=
  match input with
  | a :: b :: c :: d :: rest => some (rest, ((a * 256 + b) * 256 + c) * 256 + d)
  | _ => none

/-- Model of `nom::bytes::complete::take(n)`: the first `n` bytes. -/
def takeP (n : Nat) (input : List Nat) : Option (List Nat × List Nat) :=
  if n ≤ input.length then some (input.drop n, input.take n) else none

/-! ## Varint codec (`src/sqlite/varint.rs`) -/

/-- Model of `take_while_m_n(0, k, |b| b >= 0x80)`: up to `k` leading
bytes whose high bit is set, returned with the rest of the input. -/
def takeHi : Nat → List Nat → List Nat × List Nat
  | _, [] => ([], [])
  | 0, input => ([], input)
  | Nat.succ k, b :: bs =>
    if 0x80 ≤ b then
      match takeHi k bs with
      | (h, r) => (b :: h, r)
    else ([], b :: bs)

/-- One step of the varint accumulation loop:
`ans = (ans << 7) | (b & 0x7f)`. -/
def varintStep (ans b : Nat) : Nat := (ans <<< 7) ||| (b &&& 0x7f)

/-- `varint` from `src/sqlite/varint.rs`: up to eight bytes with the high
bit set, then one terminator byte; a ninth byte contributes all 8 bits,
otherwise the terminator contributes its low 7 bits. -/
def varint (input : List Nat) : Option (List Nat × Nat) :=
  match takeHi 8 input with
  | (hibytes, rest) =>
    let ans := hibytes.foldl varintStep 0
    match rest with
    | [] => none
    | last :: rest =>
      if hibytes.length = 8 then some (rest, (ans <<< 8) ||| last)
      else some (rest, (ans <<< 7) ||| (last &&& 0x7f))

/-- `k` big-endian 7-bit groups of `n`, each with the high bit set
(the non-terminator prefix of a canonical varint encoding). -/
def hiChunk : Nat → Nat → List Nat
  | _, 0 => []
  | n, Nat.succ k => hiChunk (n / 128) k ++ [128 + n % 128]

/-- Number of 7-bit groups needed for `n`, with structural fuel
(`fuel ≥ n` suffices, since `n / 128 < n` for `n ≥ 128`). -/
def varintLenGo : Nat → Nat → Nat
  | 0, _ => 1
  | fuel + 1, n => if n < 128 then 1 else 1 + varintLenGo fuel (n / 128)

/-- Number of 7-bit groups needed for `n` (≥ 1). -/
def varintLen (n : Nat) : Nat := varintLenGo n n

/-- The canonical SQLite varint encoding of `n` (the encoder is not part
of the source; this is the standard encoding the specification's
round-trip law refers to): for `n < 2^56` a minimal run of high-bit
bytes followed by a low-7-bit terminator, otherwise eight high-bit bytes
followed by a full 8-bit ninth byte. -/
def encodeVarint (n : Nat) : List Nat :=
  if n < 2 ^ 56 then hiChunk (n / 128) (varintLen n - 1) ++ [n % 128]
  else hiChunk (n / 256) 8 ++ [n % 256]

/-! ### Varint round-trip lemmas -/

theorem or_eq_add_of_lt {k a b : Nat} (h : b < 2 ^ k) :
    (a * 2 ^ k) ||| b = a * 2 ^ k + b := by
  induction k generalizing a b with
  | zero =>
    interval_cases b
    simp
  | succ k ih =>
    have h2 : 2 ^ (k + 1) = 2 * 2 ^ k := by ring
    have hb2 : b / 2 < 2 ^ k := by omega
    have hxd : a * 2 ^ (k + 1) / 2 = a * 2 ^ k := by
      rw [show a * 2 ^ (k + 1) = a * 2 ^ k * 2 by rw [h2]; ring]
      exact Nat.mul_div_cancel _ (by omega)
    have hod : (a * 2 ^ (k + 1) ||| b) / 2 = (a * 2 ^ k) ||| (b / 2) := by
      rw [Nat.or_div_two, hxd]
    have hx2 : a * 2 ^ (k + 1) % 2 = 0 := by
      have hd : (2 : ℕ) ∣ a * 2 ^ (k + 1) := ⟨a * 2 ^ k, by rw [h2]; ring⟩
      omega
    have hom : (a * 2 ^ (k + 1) ||| b) % 2 = b % 2 := by
      rcases Nat.mod_two_eq_zero_or_one b with hb | hb
      · have hno : ¬ (a * 2 ^ (k + 1) ||| b) % 2 = 1 := by
          rw [Nat.or_mod_two_eq_one]; omega
        have hle := Nat.mod_lt (a * 2 ^ (k + 1) ||| b) (show 0 < 2 by omega)
        omega
      · have hye : (a * 2 ^ (k + 1) ||| b) % 2 = 1 :=
          Nat.or_mod_two_eq_one.mpr (Or.inr hb)
        omega
    have hdm := Nat.div_add_mod (a * 2 ^ (k + 1) ||| b) 2
    rw [hod, hom] at hdm
    rw [← hdm, ih hb2]
    have hbdm := Nat.div_add_mod b 2
    have hax : a * 2 ^ (k + 1) = 2 * (a * 2 ^ k) := by rw [h2]; ring
    omega

theorem shiftLeft_or_eq_add {a b k : Nat} (h : b < 2 ^ k) :
    (a <<< k) ||| b = a * 2 ^ k + b := by
  rw [Nat.shiftLeft_eq]; exact or_eq_add_of_lt h

theorem and_127_eq_mod (x : Nat) : x &&& 127 = x % 128 := by
  have h := Nat.and_pow_two_sub_one_eq_mod x 7
  norm_num at h
  exact h

theorem varintStep_eq (ans b : Nat) : varintStep ans b = ans * 128 + b % 128 := by
  unfold varintStep
  rw [and_127_eq_mod]
  rw [show (128 : Nat) = 2 ^ 7 from by norm_num]
  exact shiftLeft_or_eq_add (Nat.mod_lt _ (by norm_num))

theorem hiChunk_length (k : Nat) : ∀ m, (hiChunk m k).length = k := by
  induction k with
  | zero => intro m; rfl
  | succ k ih => intro m; simp [hiChunk, ih]

theorem hiChunk_mem_ge {k m b : Nat} (h : b ∈ hiChunk m k) : 128 ≤ b := by
  induction k generalizing m with
  | zero => simp [hiChunk] at h
  | succ k ih =>
    simp only [hiChunk, List.mem_append, List.mem_singleton] at h
    rcases h with h | h
    · exact ih h
    · omega

theorem foldl_hiChunk (k : Nat) : ∀ (m acc : Nat),
    (hiChunk m k).foldl varintStep acc = acc * 2 ^ (7 * k) + m % 2 ^ (7 * k) := by
  induction k with
  | zero => intro m acc; simp [hiChunk]; omega
  | succ k ih =>
    intro m acc
    have hstep : (hiChunk m (k + 1)).foldl varintStep acc =
        varintStep ((hiChunk (m / 128) k).foldl varintStep acc) (128 + m % 128) := by
      simp [hiChunk, List.foldl_append]
    rw [hstep, ih, varintStep_eq]
    have hmm2 : (128 + m % 128) % 128 = m % 128 := by omega
    rw [hmm2]
    have hpow : 2 ^ (7 * (k + 1)) = 128 * 2 ^ (7 * k) := by
      rw [show 7 * (k + 1) = 7 * k + 7 from by ring, pow_add]
      ring
    have hfg : acc * 2 ^ (7 * (k + 1)) = 128 * (acc * 2 ^ (7 * k)) := by
      rw [hpow]; ring
    have h1 := Nat.mod_mul_right_div_self m 128 (2 ^ (7 * k))
    have h2 : m % (128 * 2 ^ (7 * k)) % 128 = m % 128 :=
      Nat.mod_mod_of_dvd m ⟨2 ^ (7 * k), rfl⟩
    have h3 := Nat.div_add_mod (m % (128 * 2 ^ (7 * k))) 128
    have h4 : m % (128 * 2 ^ (7 * k)) = m % 2 ^ (7 * (k + 1)) := by rw [hpow]
    omega

theorem takeHi_cons_low {k b : Nat} {bs : List Nat} (h : b < 128) :
    takeHi k (b :: bs) = ([], b :: bs) := by
  cases k with
  | zero => rfl
  | succ k => simp [takeHi, Nat.not_le.mpr h]

theorem takeHi_append_hi (l : List Nat) : ∀ (j : Nat) (rest : List Nat),
    (∀ b ∈ l, 128 ≤ b) → l.length ≤ j →
    takeHi j (l ++ rest) =
      (l ++ (takeHi (j - l.length) rest).1, (takeHi (j - l.length) rest).2) := by
  induction l with
  | nil => intro j rest _ _; simp
  | cons b l ih =>
    intro j rest hmem hlen
    cases j with
    | zero => simp at hlen
    | succ j =>
      have hb : 128 ≤ b := hmem b (by simp)
      have hrec := ih j rest (fun x hx => hmem x (by simp [hx])) (by simpa using hlen)
      simp only [List.cons_append, takeHi, if_pos hb]
      simp only [List.append_eq]
      rw [hrec]
      simp [Nat.succ_sub_succ]

theorem varintLenGo_pos (fuel n : Nat) : 1 ≤ varintLenGo fuel n := by
  cases fuel with
  | zero => simp [varintLenGo]
  | succ fuel => simp only [varintLenGo]; split <;> omega

theorem varintLen_pos (n : Nat) : 1 ≤ varintLen n := varintLenGo_pos n n

theorem varintLenGo_spec (fuel : Nat) : ∀ n, n ≤ fuel → n < 2 ^ (7 * varintLenGo fuel n) := by
  induction fuel with
  | zero =>
    intro n hle
    have : n = 0 := by omega
    subst this
    simp [varintLenGo]
  | succ fuel ih =>
    intro n hle
    simp only [varintLenGo]
    split
    · next h => simpa using h
    · next h =>
      have hd : n / 128 < n := Nat.div_lt_self (by omega) (by omega)
      have hrec := ih (n / 128) (by omega)
      have hmod := Nat.div_add_mod n 128
      have hm : n % 128 < 128 := Nat.mod_lt _ (by omega)
      have hpow : 2 ^ (7 * (1 + varintLenGo fuel (n / 128))) =
          128 * 2 ^ (7 * varintLenGo fuel (n / 128)) := by
        rw [show 7 * (1 + varintLenGo fuel (n / 128)) =
            7 * varintLenGo fuel (n / 128) + 7 from by ring, pow_add]
        ring
      omega

theorem varintLen_spec (n : Nat) : n < 2 ^ (7 * varintLen n) :=
  varintLenGo_spec n n le_rfl

theorem varintLenGo_le (k : Nat) : ∀ n fuel, 1 ≤ k → n < 2 ^ (7 * k) →
    varintLenGo fuel n ≤ k := by
  induction k with
  | zero => intro n fuel h1 _; omega
  | succ k ih =>
    intro n fuel _ hn
    cases fuel with
    | zero => have := varintLenGo_pos 0 n; simp [varintLenGo]
    | succ fuel =>
      simp only [varintLenGo]
      split
      · omega
      · next h =>
        have hk : 1 ≤ k := by
          by_contra hk0
          have hkz : k = 0 := by omega
          subst hkz
          norm_num at hn
          omega
        have hdiv : n / 128 < 2 ^ (7 * k) := by
          rw [Nat.div_lt_iff_lt_mul (by omega : (0:Nat) < 128)]
          calc n < 2 ^ (7 * (k + 1)) := hn
            _ = 2 ^ (7 * k) * 128 := by
                rw [show 7 * (k + 1) = 7 * k + 7 from by ring, pow_add]; ring
        have := ih (n / 128) fuel hk hdiv
        omega

theorem varintLen_le (k : Nat) : ∀ n, 1 ≤ k → n < 2 ^ (7 * k) → varintLen n ≤ k :=
  fun n h1 hn => varintLenGo_le k n n h1 hn

/-- Varint round-trip: decoding the canonical encoding of any `u64`
value yields that value and consumes exactly the encoded bytes. -/
theorem varint_encode (n : Nat) (h64 : n < 2 ^ 64) (rest : List Nat) :
    varint (encodeVarint n ++ rest) = some (rest, n) := by
  by_cases h56 : n < 2 ^ 56
  · have hL1 : 1 ≤ varintLen n := varintLen_pos n
    have hLle : varintLen n ≤ 8 := by
      refine varintLen_le 8 n (by omega) ?_
      have h78 : (2 : Nat) ^ (7 * 8) = 2 ^ 56 := by norm_num
      omega
    have hlen := hiChunk_length (varintLen n - 1) (n / 128)
    have henc : encodeVarint n ++ rest =
        hiChunk (n / 128) (varintLen n - 1) ++ ((n % 128) :: rest) := by
      unfold encodeVarint
      rw [if_pos h56]
      simp
    have htake : takeHi 8 (hiChunk (n / 128) (varintLen n - 1) ++ ((n % 128) :: rest)) =
        (hiChunk (n / 128) (varintLen n - 1), (n % 128) :: rest) := by
      rw [takeHi_append_hi _ 8 _ (fun b hb => hiChunk_mem_ge hb) (by omega)]
      rw [hlen, takeHi_cons_low (Nat.mod_lt _ (by omega))]
      simp
    rw [henc]
    simp only [varint, htake, hlen]
    rw [if_neg (by omega)]
    rw [foldl_hiChunk]
    have hspec := varintLen_spec n
    have hdiv : n / 128 < 2 ^ (7 * (varintLen n - 1)) := by
      rw [Nat.div_lt_iff_lt_mul (by omega : (0:Nat) < 128)]
      calc n < 2 ^ (7 * varintLen n) := hspec
        _ = 2 ^ (7 * (varintLen n - 1)) * 128 := by
            rw [show 7 * varintLen n = 7 * (varintLen n - 1) + 7 from by omega, pow_add]
            ring
    rw [Nat.zero_mul, Nat.zero_add, Nat.mod_eq_of_lt hdiv, and_127_eq_mod]
    have hmm3 : n % 128 % 128 = n % 128 := by omega
    rw [hmm3]
    have hfin : ((n / 128) <<< 7) ||| (n % 128) = (n / 128) * 2 ^ 7 + n % 128 :=
      shiftLeft_or_eq_add (by norm_num [Nat.mod_lt])
    rw [hfin]
    have h27 : (2 : Nat) ^ 7 = 128 := by norm_num
    have hdm := Nat.div_add_mod n 128
    rw [Option.some.injEq, Prod.mk.injEq]
    exact ⟨rfl, by omega⟩
  · have hlen := hiChunk_length 8 (n / 256)
    have henc : encodeVarint n ++ rest =
        hiChunk (n / 256) 8 ++ ((n % 256) :: rest) := by
      unfold encodeVarint
      rw [if_neg h56]
      simp
    have htake : takeHi 8 (hiChunk (n / 256) 8 ++ ((n % 256) :: rest)) =
        (hiChunk (n / 256) 8, (n % 256) :: rest) := by
      rw [takeHi_append_hi _ 8 _ (fun b hb => hiChunk_mem_ge hb) (by omega)]
      rw [hlen]
      simp [takeHi]
    rw [henc]
    simp only [varint, htake, hlen]
    simp only [if_true]
    rw [foldl_hiChunk]
    have hdiv : n / 256 < 2 ^ (7 * 8) := by
      rw [Nat.div_lt_iff_lt_mul (by omega : (0:Nat) < 256)]
      calc n < 2 ^ 64 := h64
        _ = 2 ^ (7 * 8) * 256 := by norm_num
    rw [Nat.zero_mul, Nat.zero_add, Nat.mod_eq_of_lt hdiv]
    have hm256 : n % 256 < 2 ^ 8 := by
      have h := Nat.mod_lt n (show 0 < 256 by omega)
      norm_num
      omega
    rw [shiftLeft_or_eq_add hm256]
    have h28 : (2 : Nat) ^ 8 = 256 := by norm_num
    have hdm := Nat.div_add_mod n 256
    rw [Option.some.injEq, Prod.mk.injEq]
    exact ⟨rfl, by omega⟩

/-! ## Values (`src/parsers/records.rs`) -/

/-- Reinterpret a `u64` bit pattern as an `i64` (Rust `as i64`). -/
def i64ofU64 (n : Nat) : Int :=
  if n < 2 ^ 63 then (n : Int) else (n : Int) - 2 ^ 64

/-- Reinterpret an `i64` value as a `u64` (Rust `as u64`). -/
def u64ofI64 (n : Int) : Nat := (n % 2 ^ 64).toNat

/-- Big-endian value of a byte list. -/
def beNat (bs : List Nat) : Nat := bs.foldl (fun acc b => acc * 256 + b) 0

/-- Sign extension of a `k`-byte big-endian quantity (the value of nom's
`be_i16`, `be_i24`, ... on the taken bytes). -/
def signExt (k : Nat) (x : Nat) : Int :=
  if x < 2 ^ (8 * k - 1) then (x : Int) else (x : Int) - 2 ^ (8 * k)

/-- Model of Rust `str::parse::<i64>`: optional sign, decimal digits,
with the `i64` range check. -/
def digitsToNat : List Char → Option Nat
  | [] => none
  | cs =>
    cs.foldl (fun acc c =>
      match acc with
      | none => none
      | some a => if c.isDigit then some (a * 10 + (c.toNat - 48)) else none)
      (some 0)

def parseI64 (s : String) : Option Int :=
  match s.data with
  | '-' :: cs => (digitsToNat cs).bind fun n =>
      if n ≤ 2 ^ 63 then some (-(n : Int)) else none
  | '+' :: cs => (digitsToNat cs).bind fun n =>
      if n < 2 ^ 63 then some (n : Int) else none
  | cs => (digitsToNat cs).bind fun n =>
      if n < 2 ^ 63 then some (n : Int) else none

/-- Model of Rust `str::parse::<u64>`. -/
def parseU64 (s : String) : Option Nat :=
  match s.data with
  | '+' :: cs => (digitsToNat cs).bind fun n =>
      if n < 2 ^ 64 then some n else none
  | cs => (digitsToNat cs).bind fun n =>
      if n < 2 ^ 64 then some n else none

/-! ### IEEE-754 binary64 model

`f64` values are carried as their 64-bit big-endian bit pattern (a `Nat`
below `2 ^ 64`); this is exactly what `be_f64` reads from a record body.
Comparisons are modelled bit-exactly (sign/magnitude order, NaN compares
false, `-0.0 = +0.0`). -/

def f64Sign (b : Nat) : Bool := 2 ^ 63 ≤ b

def f64Mag (b : Nat) : Nat := b % 2 ^ 63

def f64IsNaN (b : Nat) : Bool :=
  (b / 2 ^ 52) % 2 ^ 11 = 2 ^ 11 - 1 && b % 2 ^ 52 ≠ 0

/-- Signed sign/magnitude key: orders all non-NaN doubles correctly and
identifies `+0.0` with `-0.0`. -/
def f64Key (b : Nat) : Int :=
  if f64Sign b then -(f64Mag b : Int) else (f64Mag b : Int)

def f64Eq (a b : Nat) : Bool :=
  !f64IsNaN a && !f64IsNaN b && f64Key a = f64Key b

def f64Lt (a b : Nat) : Bool :=
  !f64IsNaN a && !f64IsNaN b && f64Key a < f64Key b

def f64Le (a b : Nat) : Bool :=
  !f64IsNaN a && !f64IsNaN b && f64Key a ≤ f64Key b

/-- Bit pattern of the double equal to the integer `n < 2 ^ 53`
(exactly representable). -/
def f64OfSmallNat (n : Nat) : Nat :=
  if n = 0 then 0
  else (1023 + Nat.log2 n) * 2 ^ 52 + (n - 2 ^ Nat.log2 n) * 2 ^ (52 - Nat.log2 n)

/-- Model of Rust `str::parse::<f64>`, exact on integer literals below
`2 ^ 53` and undefined (`none`) elsewhere.  No theorem in this file
depends on the unmodelled cases: every claim checked here evaluates
conditions against `Null`, `Blob`, `Integer` or `Text` column values. -/
def parseF64 (s : String) : Option Nat :=
  match s.data with
  | '-' :: cs => (digitsToNat cs).bind fun n =>
      if n < 2 ^ 53 then some (if n = 0 then 0 else 2 ^ 63 + f64OfSmallNat n) else none
  | '+' :: cs => (digitsToNat cs).bind fun n =>
      if n < 2 ^ 53 then some (f64OfSmallNat n) else none
  | cs => (digitsToNat cs).bind fun n =>
      if n < 2 ^ 53 then some (f64OfSmallNat n) else none

/-- The `Value` enum from `src/parsers/records.rs`.  `float` carries the
IEEE-754 bit pattern, `blob` the raw bytes, `text` the decoded string. -/
inductive Value where
  | null : Value
  | integer : Int → Value
  | float : Nat → Value
  | blob : List Nat → Value
  | text : String → Value
deriving DecidableEq

/-- Model of `String::from_utf8_lossy`, exact on ASCII bytes; a byte
≥ 128 becomes U+FFFD (multi-byte UTF-8 sequences are not modelled — no
concrete input in this file contains one). -/
def utf8Lossy (bs : List Nat) : String :=
  String.mk (bs.map (fun b => if b < 128 then Char.ofNat b else Char.ofNat 65533))

/-- Rust `{:?}` rendering of a `Vec<u8>`. -/
def blobDebugString (bs : List Nat) : String :=
  "[" ++ String.intercalate ", " (bs.map toString) ++ "]"

/-- Placeholder rendering of an `f64` bit pattern.  Rust's `{}` float
formatting is out of scope for this embedding; no theorem in this file
inspects the display of a `float` value. -/
def f64Display (b : Nat) : String := "f64:" ++ toString b

/-- `Display for Value` from `src/parsers/records.rs`. -/
def valueToString : Value → String
  | .null => ""
  | .integer n => toString n
  | .float b => f64Display b
  | .blob bs => blobDebugString bs
  | .text s => s

/-- Saturating Rust cast `f64 as u64` from the bit pattern. -/
def f64ToU64 (b : Nat) : Nat :=
  if f64IsNaN b then 0
  else if f64Sign b then 0
  else
    let exp := b / 2 ^ 52 % 2 ^ 11
    let frac := b % 2 ^ 52
    if exp < 1023 then 0
    else if 1086 ≤ exp then 2 ^ 64 - 1
    else
      let e := exp - 1023
      if e ≤ 52 then (2 ^ 52 + frac) / 2 ^ (52 - e)
      else (2 ^ 52 + frac) * 2 ^ (e - 52)

/-- `impl From<Value> for u64` (the `impl_from_value!` macro instance):
Null/Blob default to 0, integers are cast, floats truncate-saturate,
text parses or defaults. -/
def valueToU64 : Value → Nat
  | .null => 0
  | .integer n => u64ofI64 n
  | .float b => f64ToU64 b
  | .blob _ => 0
  | .text s => (parseU64 s).getD 0

/-! ## Record codec (`src/parsers/records.rs`) -/

/-- `RecordCode` from `src/parsers/records.rs`. -/
inductive RecordCode where
  | null | i8 | i16 | i24 | i32 | i48 | i64 | f64 | zero | one : RecordCode
  | blob : Nat → RecordCode
  | string : Nat → RecordCode
deriving DecidableEq

/-- `From<u64> for RecordCode`.  The source hits `unreachable!` on the
reserved serial types 10 and 11; that panic is modelled as `none`. -/
def recordCodeOfU64 (v : Nat) : Option RecordCode :=
  if v = 0 then some .null
  else if v = 1 then some .i8
  else if v = 2 then some .i16
  else if v = 3 then some .i24
  else if v = 4 then some .i32
  else if v = 5 then some .i48
  else if v = 6 then some .i64
  else if v = 7 then some .f64
  else if v = 8 then some .zero
  else if v = 9 then some .one
  else if 12 ≤ v ∧ v % 2 = 0 then some (.blob ((v - 12) / 2))
  else if 13 ≤ v ∧ v % 2 = 1 then some (.string ((v - 13) / 2))
  else none

/-- `RecordCode::parse`: decode one value, returning the remaining body. -/
def RecordCode.parse : RecordCode → List Nat → Option (List Nat × Value)
  | .null, input => some (input, .null)
  | .i8, input =>
    (u8P input).map fun (rest, n) => (rest, .integer (signExt 1 n))
  | .i16, input =>
    (takeP 2 input).map fun (rest, bs) => (rest, .integer (signExt 2 (beNat bs)))
  | .i24, input =>
    (takeP 3 input).map fun (rest, bs) => (rest, .integer (signExt 3 (beNat bs)))
  | .i32, input =>
    (takeP 4 input).map fun (rest, bs) => (rest, .integer (signExt 4 (beNat bs)))
  | .i48, input =>
    (takeP 6 input).map fun (rest, bs) =>
      let x := beNat bs
      let x := if 0x80 ≤ bs.headD 0 then x ||| 0xffff000000000000 else x
      (rest, .integer (i64ofU64 x))
  | .i64, input =>
    (takeP 8 input).map fun (rest, bs) => (rest, .integer (signExt 8 (beNat bs)))
  | .f64, input =>
    (takeP 8 input).map fun (rest, bs) => (rest, .float (beNat bs))
  | .zero, input => some (input, .integer 0)
  | .one, input => some (input, .integer 1)
  | .blob n, input =>
    (takeP n input).map fun (rest, bs) => (rest, .blob bs)
  | .string n, input =>
    (takeP n input).map fun (rest, bs) => (rest, .text (utf8Lossy bs))

/-! ## Payloads and cells (`src/parsers/cells.rs`) -/

/-- Failure modes of record/payload decoding: `recoverable` is a nom
`Err` (propagated as a `Result` by the callers), `panicked` is a Rust
panic (out-of-bounds slice, or the `unreachable!` on serial types
10/11). -/
inductive ParseFailure where
  | recoverable : ParseFailure
  | panicked : ParseFailure
deriving DecidableEq

/-- The `Payload` struct (borrowed bytes plus declared size). -/
structure Payload where
  size : Nat
  payload : List Nat
  overflow : Option Nat
deriving DecidableEq

/-- `many1(into(varint))` over the header bytes: parse serial-type
varints until the input is exhausted (or a varint fails, which ends the
loop), converting each through `From<u64> for RecordCode` — whose panic
on codes 10/11 aborts everything.  Fuel is the input length. -/
def manyCodesGo : Nat → List Nat → Except ParseFailure (List RecordCode)
  | _, [] => .ok []
  | 0, _ => .ok []
  | fuel + 1, input =>
    match varint input with
    | none => .ok []
    | some (rest, v) =>
      match recordCodeOfU64 v with
      | none => .error .panicked
      | some code =>
        match manyCodesGo fuel rest with
        | .error e => .error e
        | .ok codes => .ok (code :: codes)

/-- Decode each record in order, consuming body bytes. -/
def parseRecords : List RecordCode → List Nat → Option (List Nat × List Value)
  | [], body => some (body, [])
  | code :: codes, body =>
    match code.parse body with
    | none => none
    | some (body, rec) =>
      match parseRecords codes body with
      | none => none
      | some (body, recs) => some (body, rec :: recs)

/-- `Payload::parse` from `src/parsers/cells.rs`: header-size varint,
header slice, serial-type varints via `many1`, then the body values. -/
def payloadParse (payload : List Nat) : Except ParseFailure (List Value) :=
  match varint payload with
  | none => .error .recoverable
  | some (_, headerSize) =>
    if payload.length < headerSize then .error .panicked
    else
      let header := payload.take headerSize
      match varint header with
      | none => .error .recoverable
      | some (header, _) =>
        match manyCodesGo header.length header with
        | .error e => .error e
        | .ok [] => .error .recoverable
        | .ok codes =>
          let body := payload.drop headerSize
          match parseRecords codes body with
          | none => .error .recoverable
          | some (_, records) => .ok records

/-- The `Cell` enum from `src/parsers/cells.rs`. -/
inductive Cell where
  | tableLeaf : Nat → Payload → Cell
  | tableInterior : Nat → Nat → Cell
  | indexLeaf : Payload → Cell
  | indexInterior : Nat → Payload → Cell
deriving DecidableEq

/-- `Cell::next_page` (left-child pointer through `NonZeroU64::new`). -/
def Cell.nextPage : Cell → Option Nat
  | .tableLeaf _ _ => none
  | .tableInterior leftChildPage _ =>
    if leftChildPage = 0 then none else some leftChildPage
  | .indexLeaf _ => none
  | .indexInterior leftChildPage _ =>
    if leftChildPage = 0 then none else some leftChildPage

/-- `Cell::get_payload`. -/
def Cell.getPayload : Cell → Option Payload
  | .tableLeaf _ payload => some payload
  | .tableInterior _ _ => none
  | .indexLeaf payload => some payload
  | .indexInterior _ payload => some payload

/-- A row is an ordered list of values. -/
def Row := List Value
deriving instance DecidableEq for Row

/-- `TryFrom<Cell> for Vec<Value>`: decode the payload; for a TableLeaf
cell whose first value is `Null`, replace it by `Integer(row_id)` (the
rowid-aliasing convention).  `row[0]` on an empty row would panic. -/
def cellToRow (cell : Cell) : Except ParseFailure Row :=
  match cell.getPayload with
  | none => .error .recoverable
  | some pl =>
    match payloadParse pl.payload with
    | .error e => .error e
    | .ok row =>
      match cell with
      | .tableLeaf rowId _ =>
        match row with
        | [] => .error .panicked
        | .null :: rest => .ok (.integer (i64ofU64 rowId) :: rest)
        | _ => .ok row
      | _ => .ok row

/-! ## Pages (`src/sqlite/pages.rs`) -/

/-- `PageKind`. -/
inductive PageKind where
  | indexInterior | tableInterior | indexLeaf | tableLeaf : PageKind
deriving DecidableEq

/-- `PageKind::is_interior`. -/
def PageKind.isInterior : PageKind → Bool
  | .indexInterior => true
  | .tableInterior => true
  | _ => false

/-- `TryFrom<u8> for PageKind` (2, 5, 10, 13). -/
def pageKindOfU8 (v : Nat) : Option PageKind :=
  match v with
  | 2 => some .indexInterior
  | 5 => some .tableInterior
  | 10 => some .indexLeaf
  | 13 => some .tableLeaf
  | _ => none

/-- `BtreeHeader`. -/
structure BtreeHeader where
  kind : PageKind
  firstFreeblock : Nat
  cellCount : Nat
  cellContents : Nat
  fragmentedFreeBytes : Nat
  rightmostPointer : Option Nat
deriving DecidableEq

/-- `BtreeHeader::new` (= `parse_btree_header` in `src/sqlite/pages.rs`):
kind byte, three big-endian u16 fields, one u8, then an (always-read)
big-endian u32 kept as the rightmost pointer only for interior pages. -/
def btreeHeaderNew (input : List Nat) : Option (List Nat × BtreeHeader) :=
  match input with
  | k :: a1 :: a2 :: b1 :: b2 :: c1 :: c2 :: d :: r1 :: r2 :: r3 :: r4 :: rest =>
    match pageKindOfU8 k with
    | none => none
    | some kind =>
      let rp := ((r1 * 256 + r2) * 256 + r3) * 256 + r4
      some (rest,
        { kind := kind
          firstFreeblock := a1 * 256 + a2
          cellCount := b1 * 256 + b2
          cellContents := c1 * 256 + c2
          fragmentedFreeBytes := d
          rightmostPointer := if kind.isInterior then some rp else none })
  | _ => none

/-- `Page`: id, raw bytes, parsed header. -/
structure Page where
  pageId : Nat
  data : List Nat
  header : BtreeHeader
deriving DecidableEq

/-- `BtreeHeader::parse_cell`: decode one cell according to the page
kind. -/
def parseCell (h : BtreeHeader) (input : List Nat) : Option (List Nat × Cell) :=
  match h.kind with
  | .tableLeaf =>
    match varint input with
    | none => none
    | some (input, size) =>
      match varint input with
      | none => none
      | some (input, rowId) =>
        match takeP size input with
        | none => none
        | some (input, payload) =>
          some (input, .tableLeaf rowId ⟨size, payload, none⟩)
  | .tableInterior =>
    match beU32P input with
    | none => none
    | some (input, leftChildPage) =>
      match varint input with
      | none => none
      | some (input, rowId) => some (input, .tableInterior leftChildPage rowId)
  | .indexLeaf =>
    match varint input with
    | none => none
    | some (input, size) =>
      match takeP size input with
      | none => none
      | some (input, payload) => some (input, .indexLeaf ⟨size, payload, none⟩)
  | .indexInterior =>
    match beU32P input with
    | none => none
    | some (input, leftChildPage) =>
      match varint input with
      | none => none
      | some (input, size) =>
        match takeP size input with
        | none => none
        | some (input, payload) =>
          some (input, .indexInterior leftChildPage ⟨size, payload, none⟩)

/-- One `CellIter` step stream: read big-endian u16 pointers from the
pointer array; stop at the first cell that fails to parse; panic
(`none`) if a pointer points past the page buffer. -/
def cellIterGo (page : Page) : List Nat → Option (List Cell)
  | a :: b :: ptrRest =>
    let ptr := a * 256 + b
    if page.data.length < ptr then none
    else
      match parseCell page.header (page.data.drop ptr) with
      | none => some []
      | some (_, cell) =>
        match cellIterGo page ptrRest with
        | none => none
        | some cells => some (cell :: cells)
  | _ => some []

/-- `Page::cells`: pointer-array start 108 on page 1, else 12 for
interior and 8 for leaf pages; slicing the array panics (`none`) when it
reaches past the buffer. -/
def pageCells (page : Page) : Option (List Cell) :=
  let start := if page.pageId = 1 then 108
    else if page.header.kind.isInterior then 12 else 8
  let count := page.header.cellCount
  if page.data.length < start + count * 2 then none
  else cellIterGo page ((page.data.drop start).take (count * 2))

/-! ## Tables (`src/sqlite/tables.rs`) -/

/-- `CellType`. -/
inductive CellType where
  | null | integer | float | text | blob : CellType
deriving DecidableEq

/-- `Column`. -/
structure Column where
  idx : Nat
  name : String
  cellType : CellType
  nullable : Bool
  pk : Bool
deriving DecidableEq

/-- `HashMap<String, Column>` is modelled as an association list whose
keys are unique; `from_iter` inserts with replacement. -/
def insertReplace (m : List (String × Column)) (k : String) (v : Column) :
    List (String × Column) :=
  match m with
  | [] => [(k, v)]
  | (k', v') :: rest =>
    if k' = k then (k, v) :: rest else (k', v') :: insertReplace rest k v

/-- `Table`. -/
structure Table where
  name : String
  columns : List (String × Column)
  key : Option String
deriving DecidableEq

/-- Model of Rust byte-lexicographic `String` comparison (`String: Ord`);
codepoint order coincides with UTF-8 byte order. -/
def charListLt : List Char → List Char → Bool
  | [], [] => false
  | [], _ :: _ => true
  | _ :: _, [] => false
  | a :: as, b :: bs => if a < b then true else if b < a then false else charListLt as bs

def strLt (a b : String) : Bool := charListLt a.data b.data

def strLe (a b : String) : Bool := !(strLt b a)

/-! ## Conditions (`src/parsers/sql.rs`) -/

/-- The `Condition` enum: operator, column name, literal value(s). -/
inductive Condition where
  | eq : String → String → Condition
  | greater : String → String → Condition
  | greaterEq : String → String → Condition
  | less : String → String → Condition
  | lessEq : String → String → Condition
  | ne : String → String → Condition
  | between : String → String → String → Condition
deriving DecidableEq

/-- `Condition::eval`: dispatch on the column value's variant.  The Rust
indexing `row[column.idx]` panics when the index is out of bounds, which
is modelled as `none`; every in-range evaluation is `some b`. -/
def Condition.eval (cond : Condition) (row : List Value)
    (columns : List (String × Column)) : Option Bool :=
  match cond with
  | .eq colName val =>
    match columns.lookup colName with
    | none => some false
    | some column =>
      match row.get? column.idx with
      | none => none
      | some (.integer n) =>
        some (match parseI64 val with | some v => n = v | none => false)
      | some (.text t) => some (t == val)
      | some (.float f) =>
        some (match parseF64 val with | some v => f64Eq f v | none => false)
      | some .null => some (val == "NULL")
      | some (.blob _) => some false
  | .greaterEq colName val =>
    match columns.lookup colName with
    | none => some false
    | some column =>
      match row.get? column.idx with
      | none => none
      | some (.integer n) =>
        some (match parseI64 val with | some v => v ≤ n | none => false)
      | some (.text t) => some (strLt val t || t == val)
      | some (.float f) =>
        some (match parseF64 val with | some v => f64Le v f | none => false)
      | some .null => some (val == "NULL")
      | some (.blob _) => some false
  | .greater colName val =>
    match columns.lookup colName with
    | none => some false
    | some column =>
      match row.get? column.idx with
      | none => none
      | some (.integer n) =>
        some (match parseI64 val with | some v => v < n | none => false)
      | some (.text t) => some (strLt val t)
      | some (.float f) =>
        some (match parseF64 val with | some v => f64Lt v f | none => false)
      | some .null => some (val == "NULL")
      | some (.blob _) => some false
  | .lessEq colName val =>
    match columns.lookup colName with
    | none => some false
    | some column =>
      match row.get? column.idx with
      | none => none
      | some (.integer n) =>
        some (match parseI64 val with | some v => n ≤ v | none => false)
      | some (.text t) => some (strLt t val || t == val)
      | some (.float f) =>
        some (match parseF64 val with | some v => f64Le f v | none => false)
      | some .null => some (val == "NULL")
      | some (.blob _) => some false
  | .less colName val =>
    match columns.lookup colName with
    | none => some false
    | some column =>
      match row.get? column.idx with
      | none => none
      | some (.integer n) =>
        some (match parseI64 val with | some v => n < v | none => false)
      | some (.text t) => some (strLt t val)
      | some (.float f) =>
        some (match parseF64 val with | some v => f64Lt f v | none => false)
      | some .null => some (val == "NULL")
      | some (.blob _) => some false
  | .ne colName val =>
    match columns.lookup colName with
    | none => some false
    | some column =>
      match row.get? column.idx with
      | none => none
      | some (.integer n) =>
        some (match parseI64 val with | some v => n ≠ v | none => false)
      | some (.text t) => some (!(t == val))
      | some (.float f) =>
        some (match parseF64 val with | some v => !(f64Eq f v) | none => false)
      | some .null => some (val == "NULL")
      | some (.blob _) => some false
  | .between colName lo hi =>
    match columns.lookup colName with
    | none => some false
    | some column =>
      match row.get? column.idx with
      | none => none
      | some (.integer n) =>
        some (match parseI64 lo, parseI64 hi with
          | some l, some h => l ≤ n ∧ n ≤ h
          | _, _ => false)
      | some (.text t) =>
        some ((strLt lo t || t == lo) && (strLt t hi || t == hi))
      | some (.float f) =>
        some (match parseF64 lo, parseF64 hi with
          | some l, some h => f64Le l f && f64Le f h
          | _, _ => false)
      | some _ => some false

/-- `SelectColumns`. -/
inductive SelectColumns where
  | columns : List String → SelectColumns
  | all : SelectColumns
  | count : SelectColumns
deriving DecidableEq

/-- `Select`. -/
structure Select where
  name : String
  columns : SelectColumns
  conds : List Condition
deriving DecidableEq

/-! ## The peg grammar (`src/parsers/sql.rs`), embedded as recursive
descent over `List Char` with explicit fuel for the repetition rules. -/

def isWsChar (c : Char) : Bool := c = ' ' || c = '\t' || c = '\r' || c = '\n'

/-- The `_` rule: consume any amount of whitespace. -/
def wsP (input : List Char) : List Char := input.dropWhile isWsChar

def isWordChar (c : Char) : Bool := c.isAlpha || c.isDigit || c = '.' || c = '_'

/-- Literal match. -/
def litP (pat : String) (input : List Char) : Option (List Char) :=
  if pat.data.isPrefixOf input then some (input.drop pat.data.length) else none

/-- The `word` rule: one or more word characters. -/
def wordP (input : List Char) : Option (List Char × List Char) :=
  match input.takeWhile isWordChar with
  | [] => none
  | w => some (input.drop w.length, w)

/-- `word() ** _` under a `$(...)` capture: words separated by
whitespace, returning the exact consumed text (separating whitespace is
only kept when another word follows). -/
def capWordsGo : Nat → List Char → List Char × List Char
  | 0, input => ([], input)
  | fuel + 1, input =>
    match wordP input with
    | none => ([], input)
    | some (rest, w) =>
      let sep := rest.takeWhile isWsChar
      let afterSep := rest.drop sep.length
      match wordP afterSep with
      | none => (w, rest)
      | some _ =>
        match capWordsGo fuel afterSep with
        | (cap, rest') => (w ++ sep ++ cap, rest')

/-- The `name` rule: whitespace then a bare word, or whitespace then a
double-quoted run of words. -/
def nameP (input : List Char) : Option (List Char × String) :=
  let i := wsP input
  match wordP i with
  | some (rest, w) => some (rest, String.mk w)
  | none =>
    match i with
    | '"' :: i2 =>
      match capWordsGo i2.length i2 with
      | (cap, rest) =>
        match rest with
        | '"' :: rest2 => some (rest2, String.mk cap)
        | _ => none
    | _ => none

/-- The `value` rule: a bare word, or a run of words between single or
double quotes (the two quote characters need not match). -/
def valueP (input : List Char) : Option (List Char × String) :=
  match wordP input with
  | some (rest, w) => some (rest, String.mk w)
  | none =>
    match input with
    | q :: i2 =>
      if q = '"' || q = '\'' then
        match capWordsGo i2.length i2 with
        | (cap, rest) =>
          match rest with
          | q2 :: rest2 =>
            if q2 = '"' || q2 = '\'' then some (rest2, String.mk cap) else none
          | [] => none
      else none
    | [] => none

/-- One binary-operator alternative of the `condition` rule:
`name _ <op> _ value _?`. -/
def conditionAlt (op : String) (mk : String → String → Condition)
    (input : List Char) : Option (List Char × Condition) :=
  match nameP input with
  | none => none
  | some (i1, c) =>
    match litP op (wsP i1) with
    | none => none
    | some i3 =>
      match valueP (wsP i3) with
      | none => none
      | some (i5, v) => some (wsP i5, mk c v)

/-- The `BETWEEN` alternative:
`name _ ("BETWEEN"/"between") _ value _ ("AND"/"and") _ value _?`. -/
def conditionBetween (input : List Char) : Option (List Char × Condition) :=
  match nameP input with
  | none => none
  | some (i1, c) =>
    match (litP "BETWEEN" (wsP i1)).orElse (fun _ => litP "between" (wsP i1)) with
    | none => none
    | some i3 =>
      match valueP (wsP i3) with
      | none => none
      | some (i5, lo) =>
        match (litP "AND" (wsP i5)).orElse (fun _ => litP "and" (wsP i5)) with
        | none => none
        | some i7 =>
          match valueP (wsP i7) with
          | none => none
          | some (i9, hi) => some (wsP i9, .between c lo hi)

/-- The `condition` rule: ordered alternatives exactly as in the
source: `=`, `>=`, `>`, `<=`, `<`, `!=`, `BETWEEN`. -/
def conditionP (input : List Char) : Option (List Char × Condition) :=
  (conditionAlt "=" .eq input).orElse fun _ =>
  (conditionAlt ">=" .greaterEq input).orElse fun _ =>
  (conditionAlt ">" .greater input).orElse fun _ =>
  (conditionAlt "<=" .lessEq input).orElse fun _ =>
  (conditionAlt "<" .less input).orElse fun _ =>
  (conditionAlt "!=" .ne input).orElse fun _ =>
  conditionBetween input

/-- The `conditionals` rule: `AND` / `and` / `OR` / `or`, in source
order, producing `()` — no connective is recorded. -/
def conditionalsP (input : List Char) : Option (List Char) :=
  (litP "AND" input).orElse fun _ =>
  (litP "and" input).orElse fun _ =>
  (litP "OR" input).orElse fun _ =>
  litP "or" input

/-- `condition() ** conditionals()`: zero or more conditions; a
separator is only consumed when another condition follows. -/
def condListGo : Nat → List Char → List Char × List Condition
  | 0, input => (input, [])
  | fuel + 1, input =>
    match conditionP input with
    | none => (input, [])
    | some (rest, c) =>
      match conditionalsP rest with
      | none => (rest, [c])
      | some rest2 =>
        match conditionP rest2 with
        | none => (rest, [c])
        | some _ =>
          match condListGo fuel rest2 with
          | (rest3, cs) => (rest3, c :: cs)

/-- The `search` rule: `_ ("WHERE"/"where")` then the condition list. -/
def searchP (input : List Char) : Option (List Char × List Condition) :=
  let i := wsP input
  match (litP "WHERE" i).orElse (fun _ => litP "where" i) with
  | none => none
  | some i2 =>
    match condListGo i2.length i2 with
    | (rest, conds) => some (rest, conds)

/-- `name() ** ","` for the projection list. -/
def nameListGo : Nat → List Char → List Char × List String
  | 0, input => (input, [])
  | fuel + 1, input =>
    match nameP input with
    | none => (input, [])
    | some (rest, n) =>
      match litP "," rest with
      | none => (rest, [n])
      | some rest2 =>
        match nameP rest2 with
        | none => (rest, [n])
        | some _ =>
          match nameListGo fuel rest2 with
          | (rest3, ns) => (n :: ns) |> fun ns' => (rest3, ns')

/-- The `columns` rule: `*`, `count(*)`, or a comma-separated name
list. -/
def columnsP (input : List Char) : Option (List Char × List String) :=
  match litP "*" input with
  | some rest => some (rest, ["*"])
  | none =>
    match litP "count(*)" input with
    | some rest => some (rest, ["count(*)"])
    | none =>
      match nameListGo input.length input with
      | (rest, ns) => some (rest, ns)

/-- Ordered-choice over literal alternatives. -/
def firstLit : List String → List Char → Option (List Char)
  | [], _ => none
  | p :: ps, input =>
    match litP p input with
    | some rest => some rest
    | none => firstLit ps input

/-- The keyword alternatives of the `operation` rule, in source order. -/
def operationKeywords : List String :=
  ["CREATE TABLE", "create table", "SELECT", "select",
   "INSERT INTO", "insert into", "UPDATE", "update",
   "DELETE FROM", "delete from", "DROP TABLE", "drop table",
   "ALTER TABLE", "alter table", "BEGIN TRANSACTION", "begin transaction",
   "COMMIT", "commit", "ROLLBACK", "rollback",
   "END TRANSACTION", "end transaction", "CREATE INDEX", "create index"]

/-- The `operation` rule. -/
def operationP (input : List Char) : Option (List Char) :=
  firstLit operationKeywords input

/-- The `select` rule. -/
def selectP (input : List Char) : Option (List Char × Select) :=
  match operationP input with
  | none => none
  | some i1 =>
    match columnsP (wsP i1) with
    | none => none
    | some (i3, cols) =>
      let i4 := wsP i3
      match (litP "from" i4).orElse (fun _ => litP "FROM" i4) with
      | none => none
      | some i5 =>
        match nameP (wsP i5) with
        | none => none
        | some (i7, nm) =>
          let i8 := wsP i7
          let selCols : SelectColumns :=
            if cols = ["*"] then .all
            else if cols = ["count(*)"] then .count
            else .columns cols
          match searchP i8 with
          | none => some (i8, { name := nm, columns := selCols, conds := [] })
          | some (i9, conds) =>
            some (i9, { name := nm, columns := selCols, conds := conds })

/-- `Select::from_str` / `sql::select`: the whole input must be
consumed. -/
def parseSelect (s : String) : Option Select :=
  match selectP s.data with
  | some ([], sel) => some sel
  | _ => none

/-- The `cell_type` rule (lowercase literals only). -/
def cellTypeP (input : List Char) : Option (List Char × CellType) :=
  match litP "integer" input with
  | some rest => some (rest, .integer)
  | none =>
    match litP "float" input with
    | some rest => some (rest, .float)
    | none =>
      match litP "text" input with
      | some rest => some (rest, .text)
      | none =>
        match litP "blob" input with
        | some rest => some (rest, .blob)
        | none => none

/-- The `column` rule:
`name _ cell_type _ primary_key? _ auto? _ not_null?`, with the
nullability computed as in the source action. -/
def columnP (input : List Char) :
    Option (List Char × (String × CellType × Bool × Bool × Bool)) :=
  match nameP input with
  | none => none
  | some (i1, nm) =>
    match cellTypeP (wsP i1) with
    | none => none
    | some (i3, t) =>
      let i4 := wsP i3
      let (i5, pk) := match (litP "PRIMARY KEY" i4).orElse
          (fun _ => litP "primary key" i4) with
        | some r => (r, true)
        | none => (i4, false)
      let i6 := wsP i5
      let (i7, autoInc) := match (litP "AUTOINCREMENT" i6).orElse
          (fun _ => litP "autoincrement" i6) with
        | some r => (r, true)
        | none => (i6, false)
      let i8 := wsP i7
      let (i9, notNull) := match (litP "NOT NULL" i8).orElse
          (fun _ => litP "not null" i8) with
        | some r => (r, true)
        | none => (i8, false)
      let nullable := if pk then false else if notNull then false else true
      some (i9, (nm, t, pk, autoInc, nullable))

/-- `column() ** ","` for CREATE TABLE. -/
def colListGo : Nat → List Char →
    List Char × List (String × CellType × Bool × Bool × Bool)
  | 0, input => (input, [])
  | fuel + 1, input =>
    match columnP input with
    | none => (input, [])
    | some (rest, c) =>
      match litP "," rest with
      | none => (rest, [c])
      | some rest2 =>
        match columnP rest2 with
        | none => (rest, [c])
        | some _ =>
          match colListGo fuel rest2 with
          | (rest3, cs) => (rest3, c :: cs)

/-- The action of the `create` rule: the last PRIMARY KEY column becomes
the key; columns gain their declaration index and are collected into the
map with replacement on duplicate names. -/
def buildTable (nm : String)
    (cols : List (String × CellType × Bool × Bool × Bool)) : Table :=
  let key := cols.foldl
    (fun k c => match c with | (n, _, pk, _, _) => if pk then some n else k) none
  let colMap := (cols.enum.foldl
    (fun m ci =>
      match ci with
      | (idx, (n, t, pk, _, nullable)) =>
        insertReplace m n ⟨idx, n, t, nullable, pk⟩) [])
  { name := nm, columns := colMap, key := key }

/-- The `create` rule: `operation _ name _ "(" _ column ** "," _ ")"`. -/
def createP (input : List Char) : Option (List Char × Table) :=
  match operationP input with
  | none => none
  | some i1 =>
    match nameP (wsP i1) with
    | none => none
    | some (i2, nm) =>
      match litP "(" (wsP i2) with
      | none => none
      | some i3 =>
        match colListGo i3.length (wsP i3) with
        | (i4, cols) =>
          match litP ")" (wsP i4) with
          | none => none
          | some i5 => some (i5, buildTable nm cols)

/-- `create_sql` / `Table::from_str`: whole-input CREATE TABLE parse. -/
def createSql (s : String) : Option Table :=
  match createP s.data with
  | some ([], t) => some t
  | _ => none

/-! ## Schemas (`src/sqlite/schemas.rs`) and the database
(`src/sqlite/db.rs`) -/

/-- `SchemaType`. -/
inductive SchemaType where
  | table | index | view | trigger : SchemaType
deriving DecidableEq

/-- `Schema` (catalogue entry). -/
structure Schema where
  stype : SchemaType
  name : String
  tableName : String
  rootpage : Nat
  sql : String
deriving DecidableEq

/-- `TryFrom<&Schema> for Table`: parse the stored DDL. -/
def tableOfSchema (schema : Schema) : Option Table := createSql schema.sql

/-- `Search` (traversal state).  `pgno` is a `NonZeroU64` in the source;
here it is a `Nat` (every constructed search uses a nonzero page). -/
structure Search where
  pgno : Nat
  key : Option String
  indeces : Option (List Nat)
  schema : Schema
  conds : List Condition
deriving DecidableEq

/-- `Search::next_page`. -/
def Search.nextPage (s : Search) (pgno : Nat) : Search :=
  { s with pgno := pgno }

/-- The database file: its page size (from the header) and raw bytes. -/
structure DbFile where
  pageSize : Nat
  data : List Nat
deriving DecidableEq

/-- `Database::get_page`: seek to `(pgno - 1) * page_size`, read exactly
`page_size` bytes, parse the B-tree header at offset 100 on page 1 and 0
elsewhere.  Every failure path in the source is an `unwrap` — a panic,
modelled as `none`; the `Result` the function declares is always `Ok`. -/
def getPage (db : DbFile) (pgno : Nat) : Option Page :=
  let off := (pgno - 1) * db.pageSize
  if db.data.length < off + db.pageSize then none
  else
    let d := (db.data.drop off).take db.pageSize
    let hdata := if pgno = 1 then d.drop 100 else d
    match btreeHeaderNew hdata with
    | none => none
    | some (_, header) => some ⟨pgno, d, header⟩

/-- Outcomes of `Database::rows`: the source function returns a plain
`Vec<Row>` and can otherwise only panic; `fuelOut` marks exhaustion of
the artificial recursion fuel. -/
inductive RunErr where
  | panicked : RunErr
  | fuelOut : RunErr
deriving DecidableEq

deriving instance DecidableEq for Except

/-- Rust `slice::binary_search(&row_id).is_ok()` on a `Vec<u64>`:
the standard-library halving loop. -/
def binSearchGo (l : List Nat) (t : Nat) : Nat → Nat → Nat → Bool
  | 0, _, _ => false
  | fuel + 1, left, right =>
    if left < right then
      let size := right - left
      let mid := left + size / 2
      let v := l.getD mid 0
      if v < t then binSearchGo l t fuel (mid + 1) right
      else if t < v then binSearchGo l t fuel left mid
      else true
    else false

def rustBinarySearchIsOk (l : List Nat) (t : Nat) : Bool :=
  binSearchGo l t (l.length + 1) 0 l.length

/-- One condition check at a table leaf:
`(&search.schema).try_into().map(|table| cond.eval(&row, &table.columns)).unwrap_or(false)`.
A failed DDL parse makes the condition false; a panic inside `eval`
propagates. -/
def condPass (schema : Schema) (row : Row) (cond : Condition) : Option Bool :=
  match tableOfSchema schema with
  | none => some false
  | some t => cond.eval row t.columns

/-- Count the conditions that evaluate to true, propagating an `eval`
panic. -/
def condMatchCount (f : Condition → Option Bool) : List Condition → Option Nat
  | [] => some 0
  | c :: cs =>
    match f c with
    | none => none
    | some b =>
      match condMatchCount f cs with
      | none => none
      | some n => some (if b then n + 1 else n)

/-- The leaf-page `flat_map` closure of `Database::rows`: decode the
cell (skip on a recoverable error), then the row-id filter when
`indeces` is set, then the key filter (which decides alone when `key` is
set), then the all-conditions filter. -/
def leafIdxOk (search : Search) (cell : Cell) : Bool :=
  match search.indeces, cell with
  | some idxs, .tableLeaf rowId _ => idxs.contains rowId
  | _, _ => true

def leafStep (search : Search) (cell : Cell) : Except RunErr (Option Row) :=
  match cellToRow cell with
  | .error .panicked => .error .panicked
  | .error .recoverable => .ok none
  | .ok row =>
    if !leafIdxOk search cell then .ok none
    else
      match search.key with
      | some searchKey =>
        match row.head? with
        | none => .ok none
        | some v =>
          if valueToString v = searchKey then .ok (some row) else .ok none
      | none =>
        if 0 < search.conds.length then
          match condMatchCount (condPass search.schema row) search.conds with
          | none => .error .panicked
          | some cnt =>
            if cnt ≠ search.conds.length then .ok none else .ok (some row)
        else .ok (some row)

/-- The leaf arm: run `leafStep` over the cells in order, collecting the
surviving rows. -/
def leafGo (search : Search) : List Cell → Except RunErr (List Row)
  | [] => .ok []
  | cell :: cells =>
    match leafStep search cell with
    | .error e => .error e
    | .ok o =>
      match leafGo search cells with
      | .error e => .error e
      | .ok rs => .ok (match o with | some r => r :: rs | none => rs)

/-- The TableInterior cell loop, parametrized by the recursive call `f`.
`.inl` is the early `return` taken when the row-id pruning hits;
`.inr` is the accumulated row list. -/
def tiLoop (search : Search) (f : Search → Except RunErr (List Row)) :
    List Cell → Except RunErr (Sum (List Row) (List Row))
  | [] => .ok (.inr [])
  | cell :: cells =>
    match cell.nextPage with
    | none =>
      match tiLoop search f cells with
      | .error e => .error e
      | .ok r => .ok r
    | some pg =>
      let earlyHit : Bool :=
        match search.indeces, cell with
        | some idxs, .tableInterior _ rowId => rustBinarySearchIsOk idxs rowId
        | _, _ => false
      if earlyHit then
        match f (search.nextPage pg) with
        | .error e => .error e
        | .ok rs => .ok (.inl rs)
      else
        match f (search.nextPage pg) with
        | .error e => .error e
        | .ok rs =>
          match tiLoop search f cells with
          | .error e => .error e
          | .ok (.inl early) => .ok (.inl early)
          | .ok (.inr acc) => .ok (.inr (rs ++ acc))

/-- The IndexInterior cell loop, parametrized by the recursive call `f`.
State: `leftKey` (the previous cell's key), the collected table row-ids,
and the rows accumulated from leftmost-partition descents.  A decode
failure or a missing first value is a `continue` that leaves the state
untouched; `lk == search_key` breaks out of the loop. -/
def iiLoop (search : Search) (searchKey : String)
    (f : Search → Except RunErr (List Row)) :
    Option String → List Nat → List Row → List Cell →
    Except RunErr (List Nat × List Row)
  | _, indices, rowsAcc, [] => .ok (indices, rowsAcc)
  | leftKey, indices, rowsAcc, cell :: cells =>
    match cellToRow cell with
    | .error .panicked => .error .panicked
    | .error .recoverable => iiLoop search searchKey f leftKey indices rowsAcc cells
    | .ok row =>
      match row.head? with
      | none => iiLoop search searchKey f leftKey indices rowsAcc cells
      | some v =>
        let rowKey := valueToString v
        match leftKey with
        | some lk =>
          if strLe lk searchKey && strLe searchKey rowKey then
            match cell.nextPage with
            | none => iiLoop search searchKey f leftKey indices rowsAcc cells
            | some pg =>
              match f (search.nextPage pg) with
              | .error e => .error e
              | .ok indexRows =>
                let indexRows :=
                  if rowKey = searchKey then indexRows ++ [row] else indexRows
                let rowIndeces :=
                  indexRows.filterMap fun r => (r.get? 1).map valueToU64
                let indices2 := indices ++ rowIndeces
                if lk = searchKey then .ok (indices2, rowsAcc)
                else iiLoop search searchKey f (some rowKey) indices2 rowsAcc cells
          else
            if lk = searchKey then .ok (indices, rowsAcc)
            else iiLoop search searchKey f (some rowKey) indices rowsAcc cells
        | none =>
          if strLe searchKey rowKey then
            match cell.nextPage with
            | none => iiLoop search searchKey f leftKey indices rowsAcc cells
            | some pg =>
              match f (search.nextPage pg) with
              | .error e => .error e
              | .ok rs =>
                iiLoop search searchKey f (some rowKey) indices (rowsAcc ++ rs) cells
          else iiLoop search searchKey f (some rowKey) indices rowsAcc cells

/-- `Database::rows` (`src/sqlite/db.rs`), with explicit recursion fuel.
Branches on the page kind: TableInterior descends every left child (with
the row-id early return) and then the rightmost pointer; IndexInterior
runs the partition walk and then the row-id rejoin into the table root;
leaf pages filter their cells. -/
def rows : Nat → DbFile → Search → Except RunErr (List Row)
  | 0, _, _ => .error .fuelOut
  | fuel + 1, db, search =>
    match getPage db search.pgno with
    | none => .error .panicked
    | some page =>
      match page.header.kind with
      | .tableInterior =>
        match pageCells page with
        | none => .error .panicked
        | some cells =>
          match tiLoop search (rows fuel db) cells with
          | .error e => .error e
          | .ok (.inl earlyRows) => .ok earlyRows
          | .ok (.inr acc) =>
            match page.header.rightmostPointer with
            | some rp =>
              if rp = 0 then .ok acc
              else
                match rows fuel db (search.nextPage rp) with
                | .error e => .error e
                | .ok rs => .ok (acc ++ rs)
            | none => .ok acc
      | .indexInterior =>
        match search.key with
        | none => .ok []
        | some searchKey =>
          if search.schema.rootpage = 0 then .ok []
          else
            match pageCells page with
            | none => .error .panicked
            | some cells =>
              match iiLoop search searchKey (rows fuel db) none [] [] cells with
              | .error e => .error e
              | .ok (indices, rowsAcc) =>
                if 0 < indices.length then
                  match rows fuel db
                      { pgno := search.schema.rootpage, key := none,
                        indeces := some indices, schema := search.schema,
                        conds := search.conds } with
                  | .error e => .error e
                  | .ok rs => .ok (rowsAcc ++ rs)
                else .ok rowsAcc
      | _ =>
        match pageCells page with
        | none => .error .panicked
        | some cells => leafGo search cells

/-- The `SelectColumns::Count` arm of `repl::run`: parse the table from
the schema DDL, reject a zero root page, fetch the root page, and report
its `cell_count`.  `ParseFailure.recoverable` stands for the `bail!` /
`?` error returns, `panicked` for `get_page`'s unwraps. -/
def runCount (db : DbFile) (schema : Schema) : Except ParseFailure Nat :=
  match tableOfSchema schema with
  | none => .error .recoverable
  | some _ =>
    if schema.rootpage = 0 then .error .recoverable
    else
      match getPage db schema.rootpage with
      | none => .error .panicked
      | some page => .ok page.header.cellCount

/-! ## Descent instrumentation for the IndexInterior walk (C9) -/

/-- `iiLoop` with a trace of the page numbers passed to the recursive
call, in descent order.  Identical to `iiLoop` otherwise. -/
def iiLoopT (search : Search) (searchKey : String)
    (f : Search → Except RunErr (List Row)) :
    Option String → List Nat → List Row → List Nat → List Cell →
    Except RunErr ((List Nat × List Row) × List Nat)
  | _, indices, rowsAcc, trace, [] => .ok ((indices, rowsAcc), trace)
  | leftKey, indices, rowsAcc, trace, cell :: cells =>
    match cellToRow cell with
    | .error .panicked => .error .panicked
    | .error .recoverable => iiLoopT search searchKey f leftKey indices rowsAcc trace cells
    | .ok row =>
      match row.head? with
      | none => iiLoopT search searchKey f leftKey indices rowsAcc trace cells
      | some v =>
        let rowKey := valueToString v
        match leftKey with
        | some lk =>
          if strLe lk searchKey && strLe searchKey rowKey then
            match cell.nextPage with
            | none => iiLoopT search searchKey f leftKey indices rowsAcc trace cells
            | some pg =>
              match f (search.nextPage pg) with
              | .error e => .error e
              | .ok indexRows =>
                let indexRows :=
                  if rowKey = searchKey then indexRows ++ [row] else indexRows
                let rowIndeces :=
                  indexRows.filterMap fun r => (r.get? 1).map valueToU64
                let indices2 := indices ++ rowIndeces
                if lk = searchKey then .ok ((indices2, rowsAcc), trace ++ [pg])
                else iiLoopT search searchKey f (some rowKey) indices2 rowsAcc
                  (trace ++ [pg]) cells
          else
            if lk = searchKey then .ok ((indices, rowsAcc), trace)
            else iiLoopT search searchKey f (some rowKey) indices rowsAcc trace cells
        | none =>
          if strLe searchKey rowKey then
            match cell.nextPage with
            | none => iiLoopT search searchKey f leftKey indices rowsAcc trace cells
            | some pg =>
              match f (search.nextPage pg) with
              | .error e => .error e
              | .ok rs =>
                iiLoopT search searchKey f (some rowKey) indices (rowsAcc ++ rs)
                  (trace ++ [pg]) cells
          else iiLoopT search searchKey f (some rowKey) indices rowsAcc trace cells

/-- The traced loop computes the same state as the plain loop. -/
theorem iiLoopT_fst (search : Search) (searchKey : String)
    (f : Search → Except RunErr (List Row)) (cells : List Cell) :
    ∀ leftKey indices rowsAcc trace,
    (iiLoopT search searchKey f leftKey indices rowsAcc trace cells).map Prod.fst =
      iiLoop search searchKey f leftKey indices rowsAcc cells := by
  induction cells with
  | nil => intro leftKey indices rowsAcc trace; rfl
  | cons cell cells ih =>
    intro leftKey indices rowsAcc trace
    simp only [iiLoopT, iiLoop]
    repeat' split
    all_goals first
      | rfl
      | exact ih _ _ _ _

/-- A page number is a legitimate descent target at an IndexInterior
page: it is the left child of one of the page's cells, and that cell's
key is at least the search key (the cell's partition can contain the
key). -/
def descendedOk (searchKey : String) (cells : List Cell) (p : Nat) : Prop :=
  ∃ c, c ∈ cells ∧ c.nextPage = some p ∧
    ∃ row, cellToRow c = .ok row ∧
      ∃ v, row.head? = some v ∧ strLe searchKey (valueToString v) = true

theorem descendedOk_tail {searchKey : String} {cell : Cell} {cells : List Cell}
    {p : Nat} (h : descendedOk searchKey cells p) :
    descendedOk searchKey (cell :: cells) p := by
  obtain ⟨c, hc, rest⟩ := h
  exact ⟨c, List.mem_cons_of_mem _ hc, rest⟩

/-- Every traced descent is accounted for: it was already in the
incoming trace, or it is a matched-partition left child. -/
theorem iiLoopT_trace (search : Search) (searchKey : String)
    (f : Search → Except RunErr (List Row)) (cells : List Cell) :
    ∀ leftKey indices rowsAcc trace0 st trace,
    iiLoopT search searchKey f leftKey indices rowsAcc trace0 cells = .ok (st, trace) →
    ∀ p ∈ trace, p ∈ trace0 ∨ descendedOk searchKey cells p := by
  induction cells with
  | nil =>
    intro leftKey indices rowsAcc trace0 st trace h p hp
    simp only [iiLoopT] at h
    cases h
    exact Or.inl hp
  | cons cell cells ih =>
    intro leftKey indices rowsAcc trace0 st trace h p hp
    simp only [iiLoopT] at h
    have step : ∀ (lk' : Option String) (ind' : List Nat) (ra' : List Row),
        iiLoopT search searchKey f lk' ind' ra' trace0 cells = .ok (st, trace) →
        p ∈ trace0 ∨ descendedOk searchKey (cell :: cells) p := by
      intro lk' ind' ra' h'
      rcases ih lk' ind' ra' trace0 st trace h' p hp with h0 | hd
      · exact Or.inl h0
      · exact Or.inr (descendedOk_tail hd)
    have stepT : ∀ (lk' : Option String) (ind' : List Nat) (ra' : List Row) (pg : Nat),
        cell.nextPage = some pg →
        (∃ row, cellToRow cell = .ok row ∧
          ∃ v, row.head? = some v ∧ strLe searchKey (valueToString v) = true) →
        iiLoopT search searchKey f lk' ind' ra' (trace0 ++ [pg]) cells = .ok (st, trace) →
        p ∈ trace0 ∨ descendedOk searchKey (cell :: cells) p := by
      intro lk' ind' ra' pg hnp hm h'
      rcases ih lk' ind' ra' (trace0 ++ [pg]) st trace h' p hp with h0 | hd
      · rcases List.mem_append.mp h0 with h0 | h0
        · exact Or.inl h0
        · have hpg : p = pg := by simpa using h0
          subst hpg
          exact Or.inr ⟨cell, List.mem_cons_self _ _, hnp, hm⟩
      · exact Or.inr (descendedOk_tail hd)
    cases hrow : cellToRow cell with
    | error e =>
      simp only [hrow] at h
      cases e with
      | panicked => simp at h
      | recoverable => exact step _ _ _ h
    | ok row =>
      simp only [hrow] at h
      cases hhd : row.head? with
      | none =>
        simp only [hhd] at h
        exact step _ _ _ h
      | some v =>
        cases leftKey with
        | some lk =>
          simp only [hhd] at h
          by_cases hc : (strLe lk searchKey && strLe searchKey (valueToString v)) = true
          · rw [if_pos hc] at h
            cases hnp : cell.nextPage with
            | none =>
              simp only [hnp] at h
              exact step _ _ _ h
            | some pg =>
              simp only [hnp] at h
              cases hf : f (search.nextPage pg) with
              | error e => rw [hf] at h; simp at h
              | ok indexRows =>
                simp only [hf] at h
                have hmatch : ∃ row', cellToRow cell = .ok row' ∧
                    ∃ v', row'.head? = some v' ∧
                      strLe searchKey (valueToString v') = true :=
                  ⟨row, hrow, v, hhd, ((Bool.and_eq_true _ _).mp hc).2⟩
                by_cases hbk : lk = searchKey
                · rw [if_pos hbk] at h
                  rw [Except.ok.injEq, Prod.mk.injEq] at h
                  obtain ⟨-, htr⟩ := h
                  subst htr
                  rcases List.mem_append.mp hp with h0 | h0
                  · exact Or.inl h0
                  · have hpg : p = pg := by simpa using h0
                    subst hpg
                    exact Or.inr ⟨cell, List.mem_cons_self _ _, hnp, hmatch⟩
                · rw [if_neg hbk] at h
                  exact stepT _ _ _ pg hnp hmatch h
          · rw [if_neg hc] at h
            by_cases hbk : lk = searchKey
            · rw [if_pos hbk] at h
              rw [Except.ok.injEq, Prod.mk.injEq] at h
              obtain ⟨-, htr⟩ := h
              subst htr
              exact Or.inl hp
            · rw [if_neg hbk] at h
              exact step _ _ _ h
        | none =>
          simp only [hhd] at h
          by_cases hc : strLe searchKey (valueToString v) = true
          · rw [if_pos hc] at h
            cases hnp : cell.nextPage with
            | none =>
              simp only [hnp] at h
              exact step _ _ _ h
            | some pg =>
              simp only [hnp] at h
              cases hf : f (search.nextPage pg) with
              | error e => rw [hf] at h; simp at h
              | ok rs =>
                simp only [hf] at h
                exact stepT _ _ _ pg hnp ⟨row, hrow, v, hhd, hc⟩ h
          · rw [if_neg hc] at h
            exact step _ _ _ h
/-! ## Serial-type bookkeeping (C4) -/

/-- The number of body bytes a legal serial type declares. -/
def serialSize (n : Nat) : Nat :=
  if n = 0 then 0
  else if n = 1 then 1
  else if n = 2 then 2
  else if n = 3 then 3
  else if n = 4 then 4
  else if n = 5 then 6
  else if n = 6 then 8
  else if n = 7 then 8
  else if n = 8 then 0
  else if n = 9 then 0
  else if n % 2 = 0 then (n - 12) / 2
  else (n - 13) / 2

/-- The value a legal serial type declares over a body, stated in the
specification's terms: big-endian sign-extended integers, an 8-byte
float bit pattern, the constants 0 and 1, and length-prefixed blob/text
payloads. -/
def declaredValue (n : Nat) (body : List Nat) : Value :=
  if n = 0 then .null
  else if n = 1 then .integer (signExt 1 (beNat (body.take 1)))
  else if n = 2 then .integer (signExt 2 (beNat (body.take 2)))
  else if n = 3 then .integer (signExt 3 (beNat (body.take 3)))
  else if n = 4 then .integer (signExt 4 (beNat (body.take 4)))
  else if n = 5 then .integer (signExt 6 (beNat (body.take 6)))
  else if n = 6 then .integer (signExt 8 (beNat (body.take 8)))
  else if n = 7 then .float (beNat (body.take 8))
  else if n = 8 then .integer 0
  else if n = 9 then .integer 1
  else if n % 2 = 0 then .blob (body.take ((n - 12) / 2))
  else .text (utf8Lossy (body.take ((n - 13) / 2)))

theorem beNat_foldl (bs : List Nat) : ∀ acc : Nat,
    bs.foldl (fun a b => a * 256 + b) acc = acc * 2 ^ (8 * bs.length) + beNat bs := by
  induction bs with
  | nil => intro acc; simp [beNat]
  | cons b bs ih =>
    intro acc
    have hbe : beNat (b :: bs) = b * 2 ^ (8 * bs.length) + beNat bs := by
      show (b :: bs).foldl (fun a b => a * 256 + b) 0 = _
      rw [List.foldl_cons, ih]
      norm_num
    rw [List.foldl_cons, ih, hbe]
    have hp : 2 ^ (8 * (b :: bs).length) = 2 ^ (8 * bs.length) * 256 := by
      rw [List.length_cons, show 8 * (bs.length + 1) = 8 * bs.length + 8 from by ring,
        pow_add]
      norm_num
    rw [hp]
    ring

theorem beNat_cons (b : Nat) (bs : List Nat) :
    beNat (b :: bs) = b * 2 ^ (8 * bs.length) + beNat bs := by
  show (b :: bs).foldl (fun a b => a * 256 + b) 0 = _
  rw [List.foldl_cons, beNat_foldl]
  norm_num

theorem beNat_lt (bs : List Nat) (hb : ∀ b ∈ bs, b < 256) :
    beNat bs < 2 ^ (8 * bs.length) := by
  induction bs with
  | nil => simp [beNat]
  | cons b bs ih =>
    rw [beNat_cons]
    have h1 : b * 2 ^ (8 * bs.length) ≤ 255 * 2 ^ (8 * bs.length) :=
      Nat.mul_le_mul_right _ (by have := hb b (by simp); omega)
    have h2 : beNat bs < 2 ^ (8 * bs.length) := ih (fun x hx => hb x (by simp [hx]))
    have h3 : 2 ^ (8 * (b :: bs).length) = 256 * 2 ^ (8 * bs.length) := by
      rw [List.length_cons, show 8 * (bs.length + 1) = 8 * bs.length + 8 from by ring,
        pow_add]
      ring
    omega

/-- The source's 6-byte decode (fold, then conditional OR with
`0xffff000000000000`, then an `as i64` cast) equals big-endian sign
extension. -/
theorem i48_signExt (bs : List Nat) (hlen : bs.length = 6)
    (hb : ∀ b ∈ bs, b < 256) :
    i64ofU64 (if 0x80 ≤ bs.headD 0 then beNat bs ||| 0xffff000000000000
      else beNat bs) = signExt 6 (beNat bs) := by
  match bs, hlen with
  | b0 :: rest, hlen =>
    have hrl : rest.length = 5 := by simpa using hlen
    have hb0 : b0 < 256 := hb b0 (by simp)
    have hr : beNat rest < 2 ^ 40 := by
      have := beNat_lt rest (fun x hx => hb x (by simp [hx]))
      rw [hrl] at this
      norm_num at this
      exact this
    have hbe : beNat (b0 :: rest) = b0 * 2 ^ 40 + beNat rest := by
      rw [beNat_cons, hrl]
    have hhead : (b0 :: rest).headD 0 = b0 := rfl
    rw [hhead, hbe]
    by_cases hc : 0x80 ≤ b0
    · rw [if_pos hc]
      have hxlo : 2 ^ 47 ≤ b0 * 2 ^ 40 + beNat rest := by
        have : (128 : Nat) * 2 ^ 40 ≤ b0 * 2 ^ 40 := Nat.mul_le_mul_right _ hc
        norm_num at this ⊢
        omega
      have hxhi : b0 * 2 ^ 40 + beNat rest < 2 ^ 48 := by
        have : b0 * 2 ^ 40 ≤ 255 * 2 ^ 40 := Nat.mul_le_mul_right _ (by omega)
        norm_num at this ⊢
        omega
      have hmask : (0xffff000000000000 : Nat) = 65535 * 2 ^ 48 := by norm_num
      have hor : (b0 * 2 ^ 40 + beNat rest) ||| 0xffff000000000000 =
          65535 * 2 ^ 48 + (b0 * 2 ^ 40 + beNat rest) := by
        rw [hmask, Nat.lor_comm]
        exact or_eq_add_of_lt hxhi
      rw [hor]
      unfold i64ofU64 signExt
      rw [if_neg (by norm_num; omega), if_neg (by norm_num; omega)]
      push_cast
      ring_nf
    · rw [if_neg hc]
      have hxhi : b0 * 2 ^ 40 + beNat rest < 2 ^ 47 := by
        have : b0 * 2 ^ 40 ≤ 127 * 2 ^ 40 := Nat.mul_le_mul_right _ (by omega)
        norm_num at this ⊢
        omega
      unfold i64ofU64 signExt
      rw [if_pos (by norm_num; omega), if_pos (by norm_num; omega)]

/-! ## The leaf-filter chain (C1) -/

/-- The leaf filter as the specification sentence states it: an
else-if chain in which a set `indeces` list decides alone, otherwise a
set `key` decides alone, otherwise a non-empty condition list decides. -/
def claimKeep (s : Search) (cell : Cell) : Option Row :=
  match cellToRow cell with
  | .error _ => none
  | .ok row =>
    match s.indeces with
    | some idxs =>
      match cell with
      | .tableLeaf rowId _ => if idxs.contains rowId then some row else none
      | _ => none
    | none =>
      match s.key with
      | some sk =>
        match row.head? with
        | some v => if valueToString v = sk then some row else none
        | none => none
      | none =>
        if s.conds ≠ [] then
          if s.conds.all (fun cd => (condPass s.schema row cd).getD false)
          then some row else none
        else some row

/-- The leaf filter as the code applies it: the checks run in sequence —
a set `indeces` list must admit the row id AND the later checks still
run; a set `key` then decides by itself (conditions are skipped);
otherwise a non-empty condition list must hold in full. -/
def amendedKeep (s : Search) (cell : Cell) : Option Row :=
  match cellToRow cell with
  | .error _ => none
  | .ok row =>
    if !leafIdxOk s cell then none
    else
      match s.key with
      | some sk =>
        match row.head? with
        | none => none
        | some v => if valueToString v = sk then some row else none
      | none =>
        if s.conds ≠ [] then
          if s.conds.all (fun cd => (condPass s.schema row cd).getD false)
          then some row else none
        else some row

/-- The C1 sentence, formalised: at every TableLeaf page, the emitted
rows are exactly the cells surviving the else-if filter chain, in cell
order. -/
def c1Claim : Prop :=
  ∀ (fuel : Nat) (db : DbFile) (s : Search) (page : Page)
    (cells : List Cell) (rs : List Row),
    getPage db s.pgno = some page →
    page.header.kind = .tableLeaf →
    pageCells page = some cells →
    rows (fuel + 1) db s = .ok rs →
    rs = cells.filterMap (claimKeep s)

/-! ## Concrete databases used as witnesses and counterexamples -/

/-- A 120-byte single-page database: page 1 is a TableLeaf with one
cell at offset 116 holding row id 7 and the record `[Null]`. -/
def db0 : DbFile :=
  ⟨120, List.replicate 100 0 ++ [13, 0, 0, 0, 1, 0, 0, 0] ++ [0, 116] ++
    List.replicate 6 0 ++ [2, 7, 2, 0]⟩

/-- Catalogue entry for `db0`'s table (root page 1, parsable DDL). -/
def schema0 : Schema := ⟨.table, "t", "t", 1, "create table t (c text)"⟩

def page0 : Page := ⟨1, db0.data, ⟨.tableLeaf, 0, 1, 0, 0, none⟩⟩

def cells0 : List Cell := [.tableLeaf 7 ⟨2, [2, 0], none⟩]

/-- Unfiltered table scan over `db0`. -/
def sPlain : Search := ⟨1, none, none, schema0, []⟩

/-- Search with both a row-id list and a (failing) condition: the shape
the index rejoin produces. -/
def sCx : Search := ⟨1, none, some [7], schema0, [.eq "c" "x"]⟩

/-- A 121-byte single-page database: page 1 is a TableInterior whose
only cell points at page 9 — far beyond the end of the file. -/
def db1 : DbFile :=
  ⟨121, List.replicate 100 0 ++ [5, 0, 0, 0, 1, 0, 0, 0] ++ [0, 116, 0, 9] ++
    [0, 0, 0, 0] ++ [0, 0, 0, 9, 5]⟩

/-- A 124-byte single-page database: page 1 is an IndexInterior with
one cell: left child page 2, key `Text "a"`. -/
def db2 : DbFile :=
  ⟨124, List.replicate 100 0 ++ [2, 0, 0, 0, 1, 0, 0, 0] ++ [0, 116, 0, 0] ++
    [0, 0, 0, 0] ++ [0, 0, 0, 2, 3, 2, 15, 97]⟩

def schema2 : Schema := ⟨.table, "t", "t", 3, "create table t (c text)"⟩

def page2 : Page := ⟨1, db2.data, ⟨.indexInterior, 0, 1, 0, 0, some 7602176⟩⟩

def cells2 : List Cell := [.indexInterior 2 ⟨3, [2, 15, 97], none⟩]

/-- Index search over `db2` whose key is past every separator. -/
def s2 : Search := ⟨1, some "z", none, schema2, []⟩

/-! ## C1 support lemmas -/

theorem condMatchCount_le (f : Condition → Option Bool) (l : List Condition) :
    ∀ cnt, condMatchCount f l = some cnt → cnt ≤ l.length := by
  induction l with
  | nil =>
    intro cnt h
    simp [condMatchCount] at h
    omega
  | cons c cs ih =>
    intro cnt h
    simp only [condMatchCount] at h
    cases hf : f c with
    | none => rw [hf] at h; simp at h
    | some b =>
      rw [hf] at h
      cases hm : condMatchCount f cs with
      | none => rw [hm] at h; simp at h
      | some n =>
        rw [hm] at h
        have hin := ih n hm
        have hlc : (c :: cs).length = cs.length + 1 := rfl
        simp only [Option.some.injEq] at h
        cases b <;> simp at h <;> omega

theorem condMatchCount_all (f : Condition → Option Bool) (l : List Condition) :
    ∀ cnt, condMatchCount f l = some cnt →
      (cnt = l.length ↔ l.all (fun c => (f c).getD false) = true) := by
  induction l with
  | nil =>
    intro cnt h
    simp [condMatchCount] at h
    simp [h]
  | cons c cs ih =>
    intro cnt h
    simp only [condMatchCount] at h
    cases hf : f c with
    | none => rw [hf] at h; simp at h
    | some b =>
      rw [hf] at h
      cases hm : condMatchCount f cs with
      | none => rw [hm] at h; simp at h
      | some n =>
        rw [hm] at h
        have hle := condMatchCount_le f cs n hm
        have hiff := ih n hm
        simp only [Option.some.injEq] at h
        rw [List.all_cons, hf]
        have hlc : (c :: cs).length = cs.length + 1 := rfl
        cases b with
        | true =>
          simp only [Option.getD_some, Bool.true_and]
          rw [← hiff]
          simp at h
          omega
        | false =>
          simp only [Option.getD_some, Bool.false_and]
          simp at h
          constructor
          · intro hc; omega
          · intro hc; cases hc

theorem leafStep_amended (s : Search) (cell : Cell) (o : Option Row)
    (h : leafStep s cell = .ok o) : amendedKeep s cell = o := by
  unfold leafStep at h
  unfold amendedKeep
  cases hrow : cellToRow cell with
  | error e =>
    simp only [hrow] at h ⊢
    cases e with
    | panicked => simp at h
    | recoverable =>
      simp only [Except.ok.injEq] at h
      exact h
  | ok row =>
    simp only [hrow] at h ⊢
    cases hio : leafIdxOk s cell with
    | false =>
      simp only [hio, Bool.not_false, eq_self_iff_true, if_true,
        Except.ok.injEq] at h ⊢
      exact h
    | true =>
      simp only [hio, Bool.not_true, Bool.false_eq_true, if_false] at h ⊢
      cases hk : s.key with
      | some sk =>
        simp only [hk] at h ⊢
        cases hh : row.head? with
        | none =>
          simp only [hh, Except.ok.injEq] at h ⊢
          exact h
        | some v =>
          simp only [hh] at h ⊢
          by_cases hv : valueToString v = sk
          · rw [if_pos hv] at h ⊢
            simp only [Except.ok.injEq] at h
            exact h
          · rw [if_neg hv] at h ⊢
            simp only [Except.ok.injEq] at h
            exact h
      | none =>
        simp only [hk] at h ⊢
        cases hcnd : s.conds with
        | nil =>
          simp only [hcnd, List.length_nil, lt_self_iff_false, if_false,
            Except.ok.injEq] at h
          simp only [hcnd, ne_eq, eq_self_iff_true, not_true_eq_false, if_false]
          exact h
        | cons c cs =>
          rw [hcnd] at h
          rw [if_pos (by simp)] at h
          rw [if_pos (by simp)]
          cases hm : condMatchCount (condPass s.schema row) (c :: cs) with
          | none => simp only [hm] at h; exact absurd h (by simp)
          | some cnt =>
            simp only [hm] at h
            have hiff := condMatchCount_all (condPass s.schema row) (c :: cs) cnt hm
            by_cases hcl : cnt = (c :: cs).length
            · rw [if_neg (by omega)] at h
              rw [if_pos (hiff.mp hcl)]
              simp only [Except.ok.injEq] at h
              exact h
            · rw [if_pos hcl] at h
              rw [if_neg (fun hall => hcl (hiff.mpr hall))]
              simp only [Except.ok.injEq] at h
              exact h

theorem leafGo_filterMap (s : Search) (cells : List Cell) :
    ∀ rs, leafGo s cells = .ok rs → rs = cells.filterMap (amendedKeep s) := by
  induction cells with
  | nil =>
    intro rs h
    simp only [leafGo, Except.ok.injEq] at h
    simp [← h]
  | cons cell cells ih =>
    intro rs h
    simp only [leafGo] at h
    cases hls : leafStep s cell with
    | error e => rw [hls] at h; simp at h
    | ok o =>
      rw [hls] at h
      cases hrec : leafGo s cells with
      | error e => rw [hrec] at h; simp at h
      | ok rs' =>
        rw [hrec] at h
        simp only [Except.ok.injEq] at h
        have hamend := leafStep_amended s cell o hls
        rw [List.filterMap_cons, hamend, ← ih rs' hrec]
        cases o <;> simp_all

/-- At a TableLeaf root, `rows` is exactly the leaf filter pass. -/
theorem rows_leaf (fuel : Nat) (db : DbFile) (s : Search) (page : Page)
    (cells : List Cell)
    (hpage : getPage db s.pgno = some page)
    (hkind : page.header.kind = .tableLeaf)
    (hcells : pageCells page = some cells) :
    rows (fuel + 1) db s = leafGo s cells := by
  simp only [rows, hpage, hkind, hcells]

/-! ## Claim C1 -/

set_option maxRecDepth 1000000 in
/-- C1, counterexample: the leaf filter is not the else-if chain the
claim states.  At `db0` with `indeces = [7]` and one failing condition
(the state the index rejoin produces), the claim's chain keeps the row
with id 7 because it is in the index list, but the code also runs the
condition check and drops it. -/
theorem c1_counterexample : ¬ c1Claim := by
  intro h
  have hx := h 1 db0 sCx page0 cells0 [] (by decide) (by decide) (by decide)
    (by decide)
  exact absurd hx (by decide)

/-- C1 (amended): at every TableLeaf page, a decoded row is emitted iff
it passes the filters applied in sequence: when `indeces` is set the
cell's row id must be present in it, and then when the key is set the
row's first value must stringify to the key (conditions are skipped),
and otherwise when the condition list is non-empty every condition must
evaluate true; surviving rows are emitted in cell order. -/
theorem c1_filter_chain_amended (fuel : Nat) (db : DbFile) (s : Search)
    (page : Page) (cells : List Cell) (rs : List Row)
    (hpage : getPage db s.pgno = some page)
    (hkind : page.header.kind = .tableLeaf)
    (hcells : pageCells page = some cells)
    (hrows : rows (fuel + 1) db s = .ok rs) :
    rs = cells.filterMap (amendedKeep s) := by
  rw [rows_leaf fuel db s page cells hpage hkind hcells] at hrows
  exact leafGo_filterMap s cells rs hrows

set_option maxRecDepth 1000000 in
theorem c1_filter_chain_amended_witness :
    rows 2 db0 sCx = .ok [] ∧
    ([] : List Row) = cells0.filterMap (amendedKeep sCx) :=
  ⟨by decide,
   c1_filter_chain_amended 1 db0 sCx page0 cells0 [] (by decide) (by decide)
     (by decide) (by decide)⟩

/-! ## Claim C2 -/

def col0 : Column := ⟨0, "c", .text, true, false⟩

def cols0 : List (String × Column) := [("c", col0)]

/-- The C2 sentence about `Null` columns, formalised: under every
operator other than `Eq`, a `Null` column value evaluates false. -/
def c2NullClaim : Prop :=
  ∀ (colName lit : String) (cols : List (String × Column)) (row : List Value)
    (col : Column),
    cols.lookup colName = some col →
    row.get? col.idx = some .null →
    (Condition.ne colName lit).eval row cols = some false ∧
    (Condition.greater colName lit).eval row cols = some false ∧
    (Condition.greaterEq colName lit).eval row cols = some false ∧
    (Condition.less colName lit).eval row cols = some false ∧
    (Condition.lessEq colName lit).eval row cols = some false

/-- C2, counterexample: `Ne("c", "NULL")` on a `Null` column evaluates
true, not false — every comparison arm returns `val == "NULL"` for
`Null`, not just `Eq`. -/
theorem c2_counterexample : ¬ c2NullClaim := by
  intro h
  have hx := (h "c" "NULL" cols0 [.null] col0 (by decide) (by decide)).1
  exact absurd hx (by decide)

/-- C2 (amended): condition evaluation dispatches on the column value's
variant such that a `Null` value evaluates to `literal == "NULL"` under
each of the six comparison operators (`Eq`, `Ne`, `Lt`, `Le`, `Gt`,
`Ge`) and false under `Between`; a `Blob` value evaluates false under
every operator; and a condition naming a column absent from the column
map evaluates false. -/
theorem c2_eval_dispatch_amended (colName lit lo hi : String)
    (cols : List (String × Column)) (row : List Value) :
    (∀ col, cols.lookup colName = some col → row.get? col.idx = some .null →
      ((Condition.eq colName lit).eval row cols = some (lit == "NULL") ∧
       (Condition.ne colName lit).eval row cols = some (lit == "NULL") ∧
       (Condition.greater colName lit).eval row cols = some (lit == "NULL") ∧
       (Condition.greaterEq colName lit).eval row cols = some (lit == "NULL") ∧
       (Condition.less colName lit).eval row cols = some (lit == "NULL") ∧
       (Condition.lessEq colName lit).eval row cols = some (lit == "NULL") ∧
       (Condition.between colName lo hi).eval row cols = some false)) ∧
    (∀ col bs, cols.lookup colName = some col →
      row.get? col.idx = some (.blob bs) →
      ((Condition.eq colName lit).eval row cols = some false ∧
       (Condition.ne colName lit).eval row cols = some false ∧
       (Condition.greater colName lit).eval row cols = some false ∧
       (Condition.greaterEq colName lit).eval row cols = some false ∧
       (Condition.less colName lit).eval row cols = some false ∧
       (Condition.lessEq colName lit).eval row cols = some false ∧
       (Condition.between colName lo hi).eval row cols = some false)) ∧
    (cols.lookup colName = none →
      ((Condition.eq colName lit).eval row cols = some false ∧
       (Condition.ne colName lit).eval row cols = some false ∧
       (Condition.greater colName lit).eval row cols = some false ∧
       (Condition.greaterEq colName lit).eval row cols = some false ∧
       (Condition.less colName lit).eval row cols = some false ∧
       (Condition.lessEq colName lit).eval row cols = some false ∧
       (Condition.between colName lo hi).eval row cols = some false)) := by
  refine ⟨fun col hcol hval => ?_, fun col bs hcol hval => ?_, fun hcol => ?_⟩
  · have hval2 : row[col.idx]? = some Value.null := by simpa using hval
    refine ⟨?_, ?_, ?_, ?_, ?_, ?_, ?_⟩ <;> simp [Condition.eval, hcol, hval2]
  · have hval2 : row[col.idx]? = some (Value.blob bs) := by simpa using hval
    refine ⟨?_, ?_, ?_, ?_, ?_, ?_, ?_⟩ <;> simp [Condition.eval, hcol, hval2]
  · refine ⟨?_, ?_, ?_, ?_, ?_, ?_, ?_⟩ <;> simp [Condition.eval, hcol]

theorem c2_eval_dispatch_amended_witness :
    (Condition.ne "c" "NULL").eval [.null] cols0 = some ("NULL" == "NULL") ∧
    (Condition.eq "c" "x").eval [.blob [1]] cols0 = some false ∧
    (Condition.less "missing" "x").eval [.null] cols0 = some false :=
  ⟨((c2_eval_dispatch_amended "c" "NULL" "a" "b" cols0 [.null]).1 col0
      (by decide) (by decide)).2.1,
   ((c2_eval_dispatch_amended "c" "x" "a" "b" cols0 [.blob [1]]).2.1 col0 [1]
      (by decide) (by decide)).1,
   ((c2_eval_dispatch_amended "missing" "x" "a" "b" cols0 [.null]).2.2
      (by decide)).2.2.2.2.1⟩

/-! ## Claim C3 -/

/-- C3: for every u64 `n`, decoding the canonical SQLite varint encoding
of `n` yields exactly `n` and consumes exactly the encoded bytes (any
trailing input is returned untouched). -/
theorem c3_varint_roundtrip (n : Nat) (h64 : n < 2 ^ 64) (rest : List Nat) :
    varint (encodeVarint n ++ rest) = some (rest, n) :=
  varint_encode n h64 rest

theorem c3_varint_roundtrip_witness :
    2 ^ 60 + 77 < 2 ^ 64 ∧
    varint (encodeVarint (2 ^ 60 + 77) ++ [1, 2]) = some ([1, 2], 2 ^ 60 + 77) :=
  ⟨by norm_num, c3_varint_roundtrip (2 ^ 60 + 77) (by norm_num) [1, 2]⟩

/-! ## Claim C5 -/

/-- C5: a TableLeaf cell whose decoded record starts with `Null` yields
a row whose first value is `Integer(row_id)`, all other values
unchanged. -/
theorem c5_rowid_aliasing (rowId : Nat) (pl : Payload) (vs : List Value)
    (hp : payloadParse pl.payload = .ok vs) (hn : vs.head? = some .null) :
    cellToRow (.tableLeaf rowId pl) = .ok (.integer (i64ofU64 rowId) :: vs.tail) := by
  cases vs with
  | nil => simp at hn
  | cons v rest =>
    have hv : v = .null := by simpa using hn
    subst hv
    unfold cellToRow
    simp only [Cell.getPayload, hp]
    rfl

theorem c5_rowid_aliasing_witness :
    payloadParse ([2, 0] : List Nat) = .ok [.null] ∧
    cellToRow (.tableLeaf 7 ⟨2, [2, 0], none⟩) = .ok [.integer 7] :=
  ⟨by decide,
   c5_rowid_aliasing 7 ⟨2, [2, 0], none⟩ [.null] (by decide) (by decide)⟩

/-! ## Claim C4 -/

theorem recordCodeOfU64_blob (n : Nat) (h12 : 12 ≤ n) (h2 : n % 2 = 0) :
    recordCodeOfU64 n = some (.blob ((n - 12) / 2)) := by
  unfold recordCodeOfU64
  repeat rw [if_neg (by omega)]
  rw [if_pos ⟨h12, h2⟩]

theorem recordCodeOfU64_string (n : Nat) (h12 : 12 ≤ n) (h2 : n % 2 = 1) :
    recordCodeOfU64 n = some (.string ((n - 13) / 2)) := by
  unfold recordCodeOfU64
  repeat rw [if_neg (by omega)]
  rw [if_pos ⟨by omega, h2⟩]

theorem serialSize_blob (n : Nat) (h12 : 12 ≤ n) (h2 : n % 2 = 0) :
    serialSize n = (n - 12) / 2 := by
  unfold serialSize
  repeat rw [if_neg (by omega)]
  rw [if_pos h2]

theorem serialSize_string (n : Nat) (h12 : 12 ≤ n) (h2 : n % 2 = 1) :
    serialSize n = (n - 13) / 2 := by
  unfold serialSize
  repeat rw [if_neg (by omega)]

theorem declaredValue_blob (n : Nat) (body : List Nat) (h12 : 12 ≤ n)
    (h2 : n % 2 = 0) :
    declaredValue n body = .blob (body.take ((n - 12) / 2)) := by
  unfold declaredValue
  repeat rw [if_neg (by omega)]
  rw [if_pos h2]

theorem declaredValue_string (n : Nat) (body : List Nat) (h12 : 12 ≤ n)
    (h2 : n % 2 = 1) :
    declaredValue n body = .text (utf8Lossy (body.take ((n - 13) / 2))) := by
  unfold declaredValue
  repeat rw [if_neg (by omega)]

/-- C4: every legal serial type (0..9, even ≥ 12, odd ≥ 13) decodes a
body with enough bytes to a `Value` of the declared variant — `Null`,
big-endian sign-extended integers (with code 5's explicit top-16-bit
sign extension), an 8-byte float, the constants 0 and 1, or a
blob/text payload of the declared length — and consumes exactly the
declared number of body bytes. -/
theorem c4_serial_types (n : Nat) (body : List Nat)
    (hlegal : n ≤ 9 ∨ 12 ≤ n)
    (hbytes : ∀ b ∈ body, b < 256)
    (hlen : serialSize n ≤ body.length) :
    (recordCodeOfU64 n).bind (fun rc => rc.parse body) =
      some (body.drop (serialSize n), declaredValue n body) := by
  by_cases h9 : n ≤ 9
  · interval_cases n
    · simp [recordCodeOfU64, serialSize, declaredValue, RecordCode.parse]
    · simp only [serialSize] at hlen
      norm_num at hlen
      cases body with
      | nil => simp at hlen
      | cons b bs =>
        simp [recordCodeOfU64, serialSize, declaredValue, RecordCode.parse, u8P,
          beNat]
    · simp only [serialSize] at hlen
      norm_num at hlen
      simp [recordCodeOfU64, serialSize, declaredValue, RecordCode.parse, takeP,
        hlen]
    · simp only [serialSize] at hlen
      norm_num at hlen
      simp [recordCodeOfU64, serialSize, declaredValue, RecordCode.parse, takeP,
        hlen]
    · simp only [serialSize] at hlen
      norm_num at hlen
      simp [recordCodeOfU64, serialSize, declaredValue, RecordCode.parse, takeP,
        hlen]
    · simp only [serialSize] at hlen
      norm_num at hlen
      have hsub := i48_signExt (body.take 6)
        (by rw [List.length_take]; omega)
        (fun b hb => hbytes b (List.mem_of_mem_take hb))
      simp [recordCodeOfU64, serialSize, declaredValue, RecordCode.parse, takeP,
        hlen]
      simpa using hsub
    · simp only [serialSize] at hlen
      norm_num at hlen
      simp [recordCodeOfU64, serialSize, declaredValue, RecordCode.parse, takeP,
        hlen]
    · simp only [serialSize] at hlen
      norm_num at hlen
      simp [recordCodeOfU64, serialSize, declaredValue, RecordCode.parse, takeP,
        hlen]
    · simp [recordCodeOfU64, serialSize, declaredValue, RecordCode.parse]
    · simp [recordCodeOfU64, serialSize, declaredValue, RecordCode.parse]
  · have h12 : 12 ≤ n := by rcases hlegal with h | h; omega; exact h
    rcases Nat.mod_two_eq_zero_or_one n with h2 | h2
    · rw [recordCodeOfU64_blob n h12 h2, serialSize_blob n h12 h2,
        declaredValue_blob n body h12 h2]
      rw [serialSize_blob n h12 h2] at hlen
      simp [RecordCode.parse, takeP, hlen]
    · rw [recordCodeOfU64_string n h12 h2, serialSize_string n h12 h2,
        declaredValue_string n body h12 h2]
      rw [serialSize_string n h12 h2] at hlen
      simp [RecordCode.parse, takeP, hlen]

theorem c4_serial_types_witness :
    ((5 : Nat) ≤ 9 ∨ 12 ≤ 5) ∧
    (recordCodeOfU64 5).bind (fun rc => rc.parse [128, 0, 0, 0, 0, 1, 99]) =
      some ([99], declaredValue 5 [128, 0, 0, 0, 0, 1, 99]) :=
  ⟨Or.inl (by decide),
   c4_serial_types 5 [128, 0, 0, 0, 0, 1, 99] (Or.inl (by decide)) (by decide)
     (by decide)⟩

/-! ## Claim C6 -/

theorem leafStep_unfiltered (s : Search) (cell : Cell) (row : Row)
    (hidx : s.indeces = none) (hk : s.key = none) (hc : s.conds = [])
    (hrow : cellToRow cell = .ok row) :
    leafStep s cell = .ok (some row) := by
  have hio : leafIdxOk s cell = true := by
    unfold leafIdxOk
    rw [hidx]
  unfold leafStep
  simp only [hrow, hio, Bool.not_true, Bool.false_eq_true, if_false, hk, hc,
    List.length_nil, Nat.lt_irrefl, if_false]

theorem leafGo_all (s : Search) (hidx : s.indeces = none) (hk : s.key = none)
    (hc : s.conds = []) : ∀ cells : List Cell,
    (∀ cell ∈ cells, ∃ row, cellToRow cell = .ok row) →
    ∃ rs, leafGo s cells = .ok rs ∧ rs.length = cells.length := by
  intro cells
  induction cells with
  | nil => intro _; exact ⟨[], rfl, rfl⟩
  | cons cell cells ih =>
    intro hok
    obtain ⟨row, hrow⟩ := hok cell (List.mem_cons_self cell cells)
    obtain ⟨rs, hrs, hlen⟩ :=
      ih (fun c hmem => hok c (List.mem_cons_of_mem cell hmem))
    refine ⟨row :: rs, ?_, by simp [hlen]⟩
    simp only [leafGo, leafStep_unfiltered s cell row hidx hk hc hrow, hrs]

/-- C6: the COUNT path returns the root page's `cell_count` and nothing
else; when the table's B-tree is a single TableLeaf page whose cells all
decode (and whose header count matches the cells), an unfiltered row
walk emits exactly that many rows, so `count(*)` equals the length of
`SELECT *`. -/
theorem c6_count_path (db : DbFile) (schema : Schema) (page : Page)
    (cells : List Cell) (fuel : Nat)
    (htab : (tableOfSchema schema).isSome)
    (hrp : schema.rootpage ≠ 0)
    (hpage : getPage db schema.rootpage = some page)
    (hkind : page.header.kind = .tableLeaf)
    (hcells : pageCells page = some cells)
    (hcnt : cells.length = page.header.cellCount)
    (hok : ∀ cell ∈ cells, ∃ row, cellToRow cell = .ok row) :
    runCount db schema = .ok page.header.cellCount ∧
    ∃ rs, rows (fuel + 1) db ⟨schema.rootpage, none, none, schema, []⟩ = .ok rs ∧
      rs.length = page.header.cellCount := by
  constructor
  · obtain ⟨t, ht⟩ := Option.isSome_iff_exists.mp htab
    unfold runCount
    rw [ht, if_neg hrp, hpage]
  · obtain ⟨rs, hrs, hlen⟩ :=
      leafGo_all ⟨schema.rootpage, none, none, schema, []⟩ rfl rfl rfl cells hok
    refine ⟨rs, ?_, by rw [hlen, hcnt]⟩
    rw [rows_leaf fuel db _ page cells hpage hkind hcells]
    exact hrs

set_option maxRecDepth 1000000 in
theorem c6_count_path_witness :
    ((tableOfSchema schema0).isSome ∧ schema0.rootpage ≠ 0 ∧
      getPage db0 schema0.rootpage = some page0 ∧
      pageCells page0 = some cells0) ∧
    runCount db0 schema0 = .ok page0.header.cellCount ∧
    ∃ rs, rows 2 db0 ⟨schema0.rootpage, none, none, schema0, []⟩ = .ok rs ∧
      rs.length = page0.header.cellCount :=
  ⟨⟨by decide, by decide, by decide, by decide⟩,
   c6_count_path db0 schema0 page0 cells0 1 (by decide) (by decide) (by decide)
     (by decide) (by decide) (by decide)
     (fun cell hcell => by
       simp only [cells0, List.mem_singleton] at hcell
       exact ⟨[.integer 7], by rw [hcell]; decide⟩)⟩

/-! ## Claim C7 -/

set_option maxRecDepth 1000000 in
/-- C7: the claimed error handling does not exist.  Every `get_page`
call site unwraps its result, so an invalid page number inside a
traversal panics the whole walk — no diagnostic-then-empty-subtree, no
continuation.  At `db1` (a one-page file whose interior root points at
page 9) `get_page` fails, and the full traversal evaluates to a panic
rather than to an empty row list. -/
theorem c7_traversal_panics :
    getPage db1 9 = none ∧
    rows 3 db1 ⟨1, none, none, schema0, []⟩ = .error .panicked := by
  constructor
  · decide
  · decide

/-! ## Claim C8 -/

set_option maxRecDepth 1000000 in
/-- C8: reserved serial-type codes are a crash, not a recoverable error.
`From<u64> for RecordCode` hits `unreachable!` on codes 10 and 11
(modelled as `none`), so a payload declaring either code panics record
decoding (`.panicked`), while the insufficient-bytes half of the claim
is indeed recoverable: a body shorter than the declared size fails with
an ordinary parse error (`.recoverable`). -/
theorem c8_reserved_codes_panic :
    recordCodeOfU64 10 = none ∧ recordCodeOfU64 11 = none ∧
    payloadParse [2, 10] = .error .panicked ∧
    payloadParse [2, 11] = .error .panicked ∧
    payloadParse [2, 1] = .error .recoverable := by
  refine ⟨by decide, by decide, by decide, by decide, by decide⟩

/-! ## Claim C9 -/

/-- C9: at an IndexInterior page the walk never follows the page's
rightmost-child pointer.  Every page number handed to the recursive call
by the cell loop (the trace of the instrumented loop) is the
`left_child_page` of a cell whose key is at least the search key — a
matched partition — and the only remaining descent in the arm is the
row-id rejoin into the table's root page, as the stated equation for
`rows` shows; `rightmost_pointer` appears in neither. -/
theorem c9_no_rightmost_descent (fuel : Nat) (db : DbFile) (s : Search)
    (sk : String) (page : Page) (cells : List Cell)
    (st : List Nat × List Row) (trace : List Nat)
    (hpage : getPage db s.pgno = some page)
    (hkind : page.header.kind = .indexInterior)
    (hkey : s.key = some sk)
    (hroot : s.schema.rootpage ≠ 0)
    (hcells : pageCells page = some cells)
    (hT : iiLoopT s sk (rows fuel db) none [] [] [] cells = .ok (st, trace)) :
    (∀ p ∈ trace, descendedOk sk cells p) ∧
    rows (fuel + 1) db s =
      (if 0 < st.1.length then
        match rows fuel db ⟨s.schema.rootpage, none, some st.1, s.schema,
            s.conds⟩ with
        | .error e => .error e
        | .ok rs => .ok (st.2 ++ rs)
      else .ok st.2) := by
  constructor
  · intro p hp
    rcases iiLoopT_trace s sk (rows fuel db) cells none [] [] [] st trace hT p hp
      with h0 | hd
    · exact absurd h0 (List.not_mem_nil p)
    · exact hd
  · have hloop : iiLoop s sk (rows fuel db) none [] [] cells = .ok st := by
      rw [← iiLoopT_fst s sk (rows fuel db) cells none [] [] [], hT]
      rfl
    obtain ⟨indices, rowsAcc⟩ := st
    simp only [rows, hpage, hkind, hkey]
    rw [if_neg hroot]
    simp only [hcells, hloop]

set_option maxRecDepth 1000000 in
theorem c9_no_rightmost_descent_witness :
    (getPage db2 s2.pgno = some page2 ∧
      page2.header.kind = .indexInterior ∧
      s2.key = some "z" ∧ s2.schema.rootpage ≠ 0 ∧
      pageCells page2 = some cells2 ∧
      iiLoopT s2 "z" (rows 1 db2) none [] [] [] cells2 = .ok (([], []), [])) ∧
    (∀ p ∈ ([] : List Nat), descendedOk "z" cells2 p) ∧
    rows 2 db2 s2 = .ok [] := by
  have h := c9_no_rightmost_descent 1 db2 s2 "z" page2 cells2 ([], []) []
    (by decide) (by decide) (by decide) (by decide) (by decide) (by decide)
  exact ⟨⟨by decide, by decide, by decide, by decide, by decide, by decide⟩,
    h.1, by simpa using h.2⟩

/-! ## Claim C10 -/

/-- A WHERE clause whose two conditions are joined by `or`. -/
def qOr : String := "select * from apples where name = 'red' or id = 297"

/-- The same query joined by `and`. -/
def qAnd : String := "select * from apples where name = 'red' and id = 297"

/-- The single `Select` both queries parse to: one flat condition list,
no connective recorded. -/
def selOrAnd : Select := ⟨"apples", .all, [.eq "name" "red", .eq "id" "297"]⟩

set_option maxRecDepth 1000000 in
/-- C10: the `conditionals` separator rule accepts `AND`, `and`, `OR`
and `or` alike and returns only the remaining input — no connective is
recorded — so the OR and AND versions of a query parse to the same
`Select` with one flat condition list, and therefore every execution of
the OR query emits exactly the rows of the AND query. -/
theorem c10_or_equals_and :
    (∀ r : List Char,
      conditionalsP ("AND".data ++ r) = some r ∧
      conditionalsP ("and".data ++ r) = some r ∧
      conditionalsP ("OR".data ++ r) = some r ∧
      conditionalsP ("or".data ++ r) = some r) ∧
    parseSelect qOr = some selOrAnd ∧
    parseSelect qAnd = some selOrAnd ∧
    ∀ (fuel : Nat) (db : DbFile) (pgno : Nat) (key : Option String)
      (idx : Option (List Nat)) (schema : Schema),
      (parseSelect qOr).map
          (fun sel => rows fuel db ⟨pgno, key, idx, schema, sel.conds⟩) =
        (parseSelect qAnd).map
          (fun sel => rows fuel db ⟨pgno, key, idx, schema, sel.conds⟩) := by
  have hOr : parseSelect qOr = some selOrAnd := by decide
  have hAnd : parseSelect qAnd = some selOrAnd := by decide
  refine ⟨fun r => by
      refine ⟨?_, ?_, ?_, ?_⟩ <;> simp [conditionalsP, litP, List.isPrefixOf],
    hOr, hAnd, ?_⟩
  intro fuel db pgno key idx schema
  rw [hOr, hAnd]

theorem c10_or_equals_and_witness :
    conditionalsP ("OR".data ++ []) = some [] ∧
    (parseSelect qOr).map
        (fun sel => rows 2 db0 ⟨1, none, none, schema0, sel.conds⟩) =
      (parseSelect qAnd).map
        (fun sel => rows 2 db0 ⟨1, none, none, schema0, sel.conds⟩) :=
  ⟨(c10_or_equals_and.1 []).2.2.1, c10_or_equals_and.2.2.2 2 db0 1 none none schema0⟩

end Esquilait
